import Mathlib

/-!
Verification development for the holo-chan streaming voice pipeline.

This file gives a shallow embedding, in Lean 4, of the parts of the
repository that the checked properties concern:

* the sentence aggregator (`_split_complete_sentences` in
  `holo_chan/main.py`) and the surrounding dispatch loop
  (`_process_transcriptions`),
* the tool-calling agent loop (`run_agent`, `parse_tool_call`,
  `call_tool` in `holo_chan/agent.py`),
* the TTS serializer (`speak` in `holo_chan/tts.py`), modelled as a
  cooperative transition system with atomic segments between `await`
  points,
* the PCM resampler (`_pcm_to_16k_mono` in
  `holo_chan/integrations/discord/input.py`).

Python strings are modelled as Lean `String` and byte-level PCM buffers
as lists of sample values (`List Int`).
-/

namespace HoloChan

/-! ### Python string helpers

Python `str.strip()` removes the ASCII whitespace characters
`' '`, `'\t'`, `'\n'`, `'\r'`, `'\x0b'`, `'\x0c'` from both ends.
-/

/-- Whitespace characters removed by Python `str.strip()` (ASCII range). -/
def isPyWs (c : Char) : Bool :=
  c = ' ' || c = '\t' || c = '\n' || c = '\r' || c = '\x0b' || c = '\x0c'

/-- List-level model of Python `str.strip()`. -/
def pyStripL (l : List Char) : List Char :=
  ((l.dropWhile isPyWs).reverse.dropWhile isPyWs).reverse

/-- Model of Python `str.strip()`. -/
def pyStrip (s : String) : String :=
  String.mk (pyStripL s.toList)

/-- Removes every Python-whitespace character from a list of characters
(used to state round-trip properties up to whitespace). -/
def noWsL (l : List Char) : List Char :=
  l.filter (fun c => !isPyWs c)

/-- Removes every Python-whitespace character from a string. -/
def noWsS (s : String) : String :=
  String.mk (noWsL s.toList)

/-! ### Sentence aggregator (`holo_chan/main.py`)

The source splits the buffer with `re.split(r"([.!?,;:])", text)`.
With a single capturing group of single characters, `re.split` returns
an odd-length list alternating non-delimiter segments (possibly empty)
and single-character delimiters.
-/

/-- The sentence-boundary characters of `_SENTENCE_BOUNDARY_RE`. -/
def isBoundaryChar (c : Char) : Bool :=
  c = '.' || c = '!' || c = '?' || c = ',' || c = ';' || c = ':'

/-- Model of `re.split(r"([.!?,;:])", text)` at the character-list level:
alternating segments and single-character delimiters, starting and ending
with a (possibly empty) segment. -/
def splitPartsL : List Char → List (List Char)
  | [] => [[]]
  | c :: cs =>
    if isBoundaryChar c then
      [] :: [c] :: splitPartsL cs
    else
      match splitPartsL cs with
      | [] => [[c]]
      | p :: ps => (c :: p) :: ps

/-- The emission loop of `_split_complete_sentences`: for each
(segment, delimiter) pair, emit `segment.strip() + delimiter` when the
stripped segment is non-empty, otherwise emit the delimiter alone when
the delimiter itself is non-whitespace. A trailing unpaired element is
not visited. -/
def emitSentencesL : List (List Char) → List (List Char)
  | seg :: delim :: rest =>
    (if pyStripL seg ≠ [] then [pyStripL seg ++ delim]
     else if pyStripL delim ≠ [] then [delim]
     else []) ++ emitSentencesL rest
  | _ => []

/-- Model of `_split_complete_sentences` (`holo_chan/main.py`): returns
the list of completed sentences and the new buffer remainder. -/
def split_complete_sentences (text : String) : List String × String :=
  let parts := splitPartsL text.toList
  if parts.length = 1 then
    ([], pyStrip text)
  else
    let sentences := (emitSentencesL parts).map String.mk
    let remainder :=
      if parts.length % 2 = 1 then String.mk (pyStripL (parts.getLast?.getD []))
      else ""
    (sentences, remainder)

/-- One aggregator step of `_process_transcriptions` (lines 126-130 of
`holo_chan/main.py`): append the fragment to the buffer with a single
space, strip, split, extend the accumulated sentences, keep the
remainder as the new buffer. -/
def aggStep (st : List String × String) (frag : String) : List String × String :=
  let buf := pyStrip (st.2 ++ " " ++ frag)
  let (ss, rem) := split_complete_sentences buf
  (st.1 ++ ss, rem)

/-- Runs the aggregator over a whole sequence of transcript fragments,
starting from an empty buffer; returns all emitted sentences and the
final (unflushed) buffer. -/
def aggRun (frags : List String) : List String × String :=
  frags.foldl aggStep ([], "")

/-- Count of sentence-boundary characters in a character list. -/
def countB (l : List Char) : Nat :=
  l.countP isBoundaryChar

/-- Concatenation of the fragments of a stream (the boundary count and
the whitespace-free content of the stream are both functions of this). -/
def concatFrags (frags : List String) : List Char :=
  (frags.map String.toList).flatten

/-- Removes the sentence-boundary characters from a string (used only to
state the round-trip property exactly as claimed). -/
def noBdryS (s : String) : String :=
  String.mk (s.toList.filter (fun c => !isBoundaryChar c))

/-- Shape invariant of `re.split` output: alternating segments and
single-character boundary delimiters, odd positions being delimiters,
every segment free of boundary characters, ending on a segment. -/
def goodParts : List (List Char) → Bool
  | [] => false
  | [p] => !p.any isBoundaryChar
  | seg :: delim :: rest =>
    !seg.any isBoundaryChar &&
    (match delim with
     | [c] => isBoundaryChar c
     | _ => false) &&
    goodParts rest

/-- Character-list concatenation of a list of strings. -/
def joinLS (xs : List String) : List Char :=
  (xs.map String.toList).flatten

/-! ### JSON values (`json.loads` in `holo_chan/agent.py`)

Python `json.loads` produces `None`, booleans, numbers, strings, lists
and dicts. Numbers are kept as their lexeme (the agent code never does
arithmetic on them; a number is only compared against the registered
string tool names, where it never matches, and formatted into error
strings). Duplicate object keys follow the Python dict semantics: the
first occurrence keeps its position, the last occurrence wins.
-/

inductive JValue where
  | null : JValue
  | bool (b : Bool) : JValue
  | num (lexeme : String) : JValue
  | str (s : String) : JValue
  | arr (items : List JValue) : JValue
  | obj (fields : List (String × JValue)) : JValue

/-- Inserts a key/value pair with Python dict semantics: an existing key
keeps its position but gets the new value, a new key is appended. -/
def objInsert (fields : List (String × JValue)) (k : String) (v : JValue) :
    List (String × JValue) :=
  if fields.any (fun p => p.1 = k) then
    fields.map (fun p => if p.1 = k then (k, v) else p)
  else fields ++ [(k, v)]

/-- Dict lookup (keys are unique after `objInsert`). -/
def jlookup (fields : List (String × JValue)) (k : String) : Option JValue :=
  (fields.find? (fun p => p.1 = k)).map Prod.snd

/-- JSON insignificant whitespace. -/
def isJsonWs (c : Char) : Bool :=
  c = ' ' || c = '\t' || c = '\n' || c = '\x0d'

/-- Skips JSON whitespace. -/
def skipJWs (l : List Char) : List Char :=
  l.dropWhile isJsonWs

/-- JSON string escape characters. -/
def escChar : Char → Option Char
  | '"' => some '"'
  | '\\' => some '\\'
  | '/' => some '/'
  | 'b' => some '\x08'
  | 'f' => some '\x0c'
  | 'n' => some '\n'
  | 'r' => some '\x0d'
  | 't' => some '\t'
  | _ => none

/-- Hexadecimal digit test. -/
def isHexDig (c : Char) : Bool :=
  c.isDigit || ('a' ≤ c && c ≤ 'f') || ('A' ≤ c && c ≤ 'F')

/-- Value of a hexadecimal digit. -/
def hexVal (c : Char) : Nat :=
  if c.isDigit then c.toNat - '0'.toNat
  else if 'a' ≤ c && c ≤ 'f' then c.toNat - 'a'.toNat + 10
  else if 'A' ≤ c && c ≤ 'F' then c.toNat - 'A'.toNat + 10
  else 0

/-- Parses the body of a JSON string after the opening quote; returns
the decoded characters and the input after the closing quote. Unescaped
control characters are rejected, as in Python. -/
def parseStringRest : List Char → Option (List Char × List Char)
  | [] => none
  | '"' :: rest => some ([], rest)
  | '\\' :: 'u' :: h1 :: h2 :: h3 :: h4 :: rest =>
    if isHexDig h1 && isHexDig h2 && isHexDig h3 && isHexDig h4 then
      (fun pr => (Char.ofNat (((hexVal h1 * 16 + hexVal h2) * 16 + hexVal h3) * 16
        + hexVal h4) :: pr.1, pr.2)) <$> parseStringRest rest
    else none
  | '\\' :: e :: rest =>
    match escChar e with
    | some c => (fun pr => (c :: pr.1, pr.2)) <$> parseStringRest rest
    | none => none
  | c :: rest =>
    if c.toNat < 0x20 then none
    else (fun pr => (c :: pr.1, pr.2)) <$> parseStringRest rest

/-- Maximal run of decimal digits. -/
def spanDigits (l : List Char) : List Char × List Char :=
  (l.takeWhile Char.isDigit, l.dropWhile Char.isDigit)

/-- Parses a JSON number and returns its lexeme. -/
def parseNumber (l : List Char) : Option (String × List Char) :=
  let (neg, l1) :=
    match l with
    | '-' :: r => ((['-'] : List Char), r)
    | _ => ([], l)
  match spanDigits l1 with
  | ([], _) => none
  | (ds, l2) =>
    let (frac, l3) :=
      match l2 with
      | '.' :: r =>
        match spanDigits r with
        | ([], _) => (([] : List Char), l2)
        | (fs, r2) => ('.' :: fs, r2)
      | _ => ([], l2)
    let (ex, l4) :=
      match l3 with
      | e :: r =>
        if e = 'e' || e = 'E' then
          match r with
          | s :: r2 =>
            if s = '+' || s = '-' then
              match spanDigits r2 with
              | ([], _) => (([] : List Char), l3)
              | (es, r3) => (e :: s :: es, r3)
            else
              match spanDigits r with
              | ([], _) => (([] : List Char), l3)
              | (es, r3) => (e :: es, r3)
          | [] => ([], l3)
        else ([], l3)
      | [] => ([], l3)
    some (String.mk (neg ++ ds ++ frac ++ ex), l4)

mutual

/-- Fuel-indexed recursive-descent JSON parser; the fuel bounds the
nesting depth and is decremented on each descent. -/
def parseJ : Nat → List Char → Option (JValue × List Char)
  | 0, _ => none
  | fuel + 1, l =>
    match skipJWs l with
    | 'n' :: 'u' :: 'l' :: 'l' :: rest => some (JValue.null, rest)
    | 't' :: 'r' :: 'u' :: 'e' :: rest => some (JValue.bool true, rest)
    | 'f' :: 'a' :: 'l' :: 's' :: 'e' :: rest => some (JValue.bool false, rest)
    | '"' :: rest =>
      match parseStringRest rest with
      | some (cs, r) => some (JValue.str (String.mk cs), r)
      | none => none
    | '[' :: rest => parseArray fuel rest
    | '\x7b' :: rest => parseObject fuel rest
    | rest =>
      match parseNumber rest with
      | some (lx, r) => some (JValue.num lx, r)
      | none => none

/-- Parses an array body after the opening bracket. -/
def parseArray : Nat → List Char → Option (JValue × List Char)
  | 0, _ => none
  | fuel + 1, l =>
    match skipJWs l with
    | ']' :: rest => some (JValue.arr [], rest)
    | _ =>
      match parseJ fuel l with
      | none => none
      | some (v, r) => parseArrayTail fuel [v] r

/-- Parses the continuation of an array after at least one element. -/
def parseArrayTail : Nat → List JValue → List Char → Option (JValue × List Char)
  | 0, _, _ => none
  | fuel + 1, acc, l =>
    match skipJWs l with
    | ',' :: rest =>
      match parseJ fuel rest with
      | none => none
      | some (v, r) => parseArrayTail fuel (acc ++ [v]) r
    | ']' :: rest => some (JValue.arr acc, rest)
    | _ => none

/-- Parses an object body after the opening brace when it is not empty. -/
def parseObject : Nat → List Char → Option (JValue × List Char)
  | 0, _ => none
  | fuel + 1, l =>
    match skipJWs l with
    | '\x7d' :: rest => some (JValue.obj [], rest)
    | _ => parseObjectTail fuel [] l

/-- Parses the members of a non-empty object. -/
def parseObjectTail : Nat → List (String × JValue) → List Char →
    Option (JValue × List Char)
  | 0, _, _ => none
  | fuel + 1, acc, l =>
    match skipJWs l with
    | '"' :: rest =>
      match parseStringRest rest with
      | none => none
      | some (kcs, r1) =>
        match skipJWs r1 with
        | ':' :: r2 =>
          match parseJ fuel r2 with
          | none => none
          | some (v, r3) =>
            match skipJWs r3 with
            | ',' :: r4 => parseObjectTail fuel (objInsert acc (String.mk kcs) v) r4
            | '\x7d' :: r4 => some (JValue.obj (objInsert acc (String.mk kcs) v), r4)
            | _ => none
        | _ => none
    | _ => none

end

/-- Model of Python `json.loads`: parse one JSON value and require that
only whitespace follows it. -/
def json_loads (s : String) : Option JValue :=
  match parseJ (s.toList.length + 1) s.toList with
  | some (v, rest) => if skipJWs rest = [] then some v else none
  | none => none

/-! ### Tool-call parsing (`parse_tool_call` in `holo_chan/agent.py`) -/

/-- The designated key of a tool call. -/
def TOOL_CALL_TAG : String := "tool_calls"

/-- Model of `parse_tool_call`: a message is a tool call when it is a
JSON object containing the tag key, whose value supports item access
with the key "name" (a dict; any other type raises and is swallowed),
and whose "arguments", if present, is a dict; the name is returned
untouched, whatever its JSON type. -/
def parse_tool_call (message : String) : Option (JValue × List (String × JValue)) :=
  match json_loads message with
  | some (JValue.obj fields) =>
    match jlookup fields TOOL_CALL_TAG with
    | some (JValue.obj cf) =>
      match jlookup cf "name" with
      | some name =>
        match (jlookup cf "arguments").getD (JValue.obj []) with
        | JValue.obj a => some (name, a)
        | _ => none
      | none => none
    | some _ => none
    | none => none
  | some _ => none
  | none => none

/-! ### The agent loop (`run_agent` in `holo_chan/agent.py`)

A conversation turn is a dict with a role and a content string. The
language-model completion and the output sink are external effects; the
completion is modelled as a function from the call index and the current
conversation to either an exception or a returned value (a string or
Python `None`), and the sink as a predicate saying whether the n-th
`speak` call returns normally. `run_agent` is deterministic given those
behaviours. Exceptions that escape `run_agent` (the `sys.exit` on a
missing API key, an exception from `speak`, and the `TypeError` raised
by `TOOLS.get` on an unhashable name) are modelled as `Except` errors.
-/

/-- A conversation turn, `build_message` in the source. -/
structure Msg where
  role : String
  content : String
deriving DecidableEq

/-- Model of `build_message`. -/
def build_message (role content : String) : Msg := ⟨role, content⟩

/-- The text of `SYSTEM_PROMPT` in the source. -/
def SYSTEM_PROMPT : String :=
  "You are Hatsune Miku, an anime girl and a hologram. You have access to some external tools.\n"
  ++ "When you need to use a tool, respond **only** with a JSON object that follows this schema:\n"
  ++ "\n"
  ++ "\x7b\n"
  ++ "    \"tool_calls\": \x7b\n"
  ++ "        \"name\": \"<tool_name>\",\n"
  ++ "        \"arguments\": \x7b ... \x7d               # a JSON-serializable dict of arguments\n"
  ++ "    \x7d\n"
  ++ "\x7d\n"
  ++ "\n"
  ++ "Do NOT add any other text before or after the JSON.  If you do not need a tool, answer the user directly in plain English.\n"
  ++ "\n"
  ++ "Available tools:\n"

/-- The text of `SYSTEM_PROMPT_AFTER_TOOL_CALLS` in the source. -/
def SYSTEM_PROMPT_AFTER_TOOL_CALLS : String :=
  "\nYou are a virtual hologram that speaks, you respond in short sentences when possible, "
  ++ "you don\x27t want to speak for minutes unless you\x27re sure that is what the user wants, and they usually don\x27t.\n"
  ++ "\nYou are a dilligent assistant, you should usually respond to the user, unless you\x27re completely sure they only want you to do something and not tell you anything about what you\x27re doing.\n"

/-- Stand-in for `pp.pformat` applied to the tool registry: the Python
repr embeds function objects carrying runtime memory addresses, so its
exact text is not reproducible from the source; no checked property
depends on this text. -/
def TOOLS_PFORMAT : String := "<pformat of the TOOLS registry>"

/-- Model of `FULL_SYSTEM_PROMPT`. -/
def FULL_SYSTEM_PROMPT : String :=
  SYSTEM_PROMPT ++ "\n" ++ TOOLS_PFORMAT ++ "\n" ++ SYSTEM_PROMPT_AFTER_TOOL_CALLS

mutual

/-- Python `repr` of a JSON-derived value (strings quoted, containers
recursively shown, the Python literals for true, false and null). -/
def pyRepr : JValue → String
  | JValue.null => "None"
  | JValue.bool true => "True"
  | JValue.bool false => "False"
  | JValue.num lx => lx
  | JValue.str s => "\x27" ++ s ++ "\x27"
  | JValue.arr xs => "[" ++ String.intercalate ", " (pyReprList xs) ++ "]"
  | JValue.obj fs => "\x7b" ++ String.intercalate ", " (pyReprFields fs) ++ "\x7d"

/-- Reprs of the elements of a list. -/
def pyReprList : List JValue → List String
  | [] => []
  | x :: xs => pyRepr x :: pyReprList xs

/-- Reprs of the members of a dict. -/
def pyReprFields : List (String × JValue) → List String
  | [] => []
  | (k, v) :: fs => ("\x27" ++ k ++ "\x27: " ++ pyRepr v) :: pyReprFields fs

end

/-- Python `str` of a JSON-derived value (as used by f-strings): a string
prints bare, anything else prints as its repr. -/
def pyStr : JValue → String
  | JValue.str s => s
  | v => pyRepr v

/-- Python `str` of an optional string, `None` printing as "None". -/
def pyOptStr : Option String → String
  | none => "None"
  | some s => s

/-- The membership test `tool_name in ("wait_for_more", "done")` of the
source; false for every non-string value. -/
def isStopName (name : JValue) : Bool :=
  match name with
  | JValue.str s => s = "wait_for_more" || s = "done"
  | _ => false

/-- The string-name path of `call_tool`: the registry `TOOLS` maps the
four tool names to handlers. A known tool is invoked with the arguments
dict as keyword arguments; a `TypeError` from an argument mismatch is
caught and turned into the "wrong arguments" string (the exact CPython
exception text is abstracted, no property depends on it); an unknown
name yields the "unknown tool" string. -/
def call_tool_str (s : String) (args : List (String × JValue)) : Option String :=
  if s = "wait_for_more" || s = "done" then
    if args.isEmpty then none
    else some ("Error: wrong arguments for tool \x27" ++ s
      ++ "\x27: unexpected keyword argument")
  else if s = "dance" then
    match args with
    | [(k, v)] =>
      if k = "dance" then
        some ("Performing dance number " ++ pyStr v)
      else
        some "Error: wrong arguments for tool \x27dance\x27: unexpected keyword argument"
    | _ =>
      some "Error: wrong arguments for tool \x27dance\x27: argument mismatch"
  else if s = "backflip" then
    if args.isEmpty then some "Performing backflip"
    else some "Error: wrong arguments for tool \x27backflip\x27: unexpected keyword argument"
  else some ("Error: unknown tool \x27" ++ s ++ "\x27.")

/-- Python hashability of a JSON-derived value: lists and dicts are
unhashable, everything else JSON can produce is hashable. -/
def hashableName (name : JValue) : Bool :=
  match name with
  | JValue.arr _ => false
  | JValue.obj _ => false
  | _ => true

/-- Model of `call_tool`. `TOOLS.get(name)` raises `TypeError` when the
name is an unhashable value (a JSON array or object); `call_tool` does
not catch that, modelled as the `Except` error. A hashable non-string
name is not in the registry and yields the "unknown tool" string. -/
def call_tool (name : JValue) (args : List (String × JValue)) :
    Except Unit (Option String) :=
  match name with
  | JValue.arr _ => Except.error ()
  | JValue.obj _ => Except.error ()
  | JValue.str s => Except.ok (call_tool_str s args)
  | v => Except.ok (some ("Error: unknown tool \x27" ++ pyStr v ++ "\x27."))

/-- Outcome of one completion invocation: an exception, or a returned
value (the content may be Python `None`). -/
inductive CompRes where
  | exc : CompRes
  | val (s : Option String) : CompRes

/-- What `run_agent` produces when it returns normally: the updated
conversation, the utterances spoken through the sink in order, and the
number of completion invocations made. -/
structure AgentRet where
  messages : List Msg
  spoken : List String
  calls : Nat
deriving DecidableEq

/-- Exceptions that can escape `run_agent`. -/
inductive AgentErr where
  | sysExit : AgentErr
  | speakExc : AgentErr
  | toolTypeExc : AgentErr
deriving DecidableEq

/-- The turn cap `MAX_TURNS` of the source. -/
def MAX_TURNS : Nat := 10

/-- The `for turn in range(1, MAX_TURNS + 1)` loop of `run_agent`,
with the remaining turns as fuel. Per turn: invoke the completion (an
exception breaks the loop), normalize the reply (`None` to empty, then
strip), try to parse a tool call; a non-tool-call empty reply breaks; a
non-empty one is appended as an assistant turn, spoken, and breaks; a
stop tool appends the assistant turn and breaks; any other tool call is
executed and both the assistant turn and the user-role result turn are
appended before the next iteration. -/
def agentLoop (comp : Nat → List Msg → CompRes) (sinkOk : Nat → String → Bool) :
    Nat → List Msg → Nat → List String → Except AgentErr AgentRet
  | 0, msgs, ci, sp => Except.ok ⟨msgs, sp, ci⟩
  | fuel + 1, msgs, ci, sp =>
    match comp ci msgs with
    | CompRes.exc => Except.ok ⟨msgs, sp, ci + 1⟩
    | CompRes.val raw =>
      let am := pyStrip (raw.getD "")
      match parse_tool_call am with
      | none =>
        if am = "" then Except.ok ⟨msgs, sp, ci + 1⟩
        else if sinkOk sp.length am then
          Except.ok ⟨msgs ++ [build_message "assistant" am], sp ++ [am], ci + 1⟩
        else Except.error AgentErr.speakExc
      | some (tool_name, tool_args) =>
        if isStopName tool_name then
          Except.ok ⟨msgs ++ [build_message "assistant" am], sp, ci + 1⟩
        else
          match call_tool tool_name tool_args with
          | Except.error _ => Except.error AgentErr.toolTypeExc
          | Except.ok tool_result =>
            agentLoop comp sinkOk fuel
              (msgs ++ [build_message "assistant" am,
                build_message "user" ("Result of `" ++ pyStr tool_name ++ "`: "
                  ++ pyOptStr tool_result)])
              (ci + 1) sp

/-- Model of `run_agent`: the `sys.exit` on a missing or empty
`GROQ_API_KEY` is the `sysExit` error; otherwise the conversation is
initialized (defaulting to the system prompt), the user query appended,
and the turn loop run. -/
def run_agent (apiKey : Option String) (user_query : String)
    (messages : Option (List Msg))
    (comp : Nat → List Msg → CompRes)
    (sinkOk : Nat → String → Bool) : Except AgentErr AgentRet :=
  if apiKey = none ∨ apiKey = some "" then Except.error AgentErr.sysExit
  else
    agentLoop comp sinkOk MAX_TURNS
      ((messages.getD [build_message "system" FULL_SYSTEM_PROMPT])
        ++ [build_message "user" user_query]) 0 []

/-! ### The dispatch loop (`_process_transcriptions` in `holo_chan/main.py`)

The loop body (lines 117-161) is modelled as one step function over the
loop state. Each iteration first waits on the queue with a timeout; the
outcome is an event: a timeout, a transcription string, or the `None`
end-of-stream signal. The in-flight `run_agent` task is modelled by the
batch string it was started with; whether it has completed by this
iteration, and the conversation it returns, are inputs of the step (the
task runs concurrently, so its completion time is adversarial). A task
created by `asyncio.create_task` earlier in the same iteration is never
`done()` at the check a few lines below, because no suspension point
runs between creation and check; the step encodes this by applying the
completion oracle only when no task was started this iteration. -/

inductive QEvent where
  | timeout : QEvent
  | item (t : Option String) : QEvent
deriving DecidableEq

/-- The loop-local state of `_process_transcriptions`. -/
structure DState where
  buffer : String
  pending : List String
  inFlight : Option String
  finished : Bool
  messages : List Msg
deriving DecidableEq

/-- Result of one loop iteration: the updated state, the batches for
which a `run_agent` task was started this iteration, and the returned
conversation when the loop terminated. -/
structure DStepOut where
  st : DState
  started : List String
  ret : Option (List Msg)
deriving DecidableEq

/-- Python `" ".join(...)`. -/
def joinSpace (xs : List String) : String :=
  String.intercalate " " xs

/-- Lines 123-130: fold the received event into the state — the `None`
sentinel sets the finished flag; a transcription is glued onto the
buffer, split, and the complete sentences are appended to the pending
batch; a timeout changes nothing. -/
def dRecv : QEvent → DState → DState
  | QEvent.timeout, s => s
  | QEvent.item none, s => { s with finished := true }
  | QEvent.item (some t), s =>
    let buf := pyStrip (s.buffer ++ " " ++ t)
    { s with pending := s.pending ++ (split_complete_sentences buf).1,
             buffer := (split_complete_sentences buf).2 }

/-- Lines 132-142: when idle and the pending batch is non-empty, join
the batch, clear it, and start one `run_agent` task with it. -/
def dDispatchPending (s : DState) : DState × List String :=
  if s.inFlight.isNone && !s.pending.isEmpty then
    ({ s with pending := [], inFlight := some (pyStrip (joinSpace s.pending)) },
     [pyStrip (joinSpace s.pending)])
  else (s, [])

/-- Lines 144-146: when the pre-existing in-flight task has completed,
adopt its returned conversation and go idle. -/
def dComplete (taskDone : Bool) (res : List Msg) (s : DState) : DState :=
  if s.inFlight.isSome && taskDone then { s with inFlight := none, messages := res } else s

/-- Lines 148-158: at end-of-stream, once idle with an empty batch but a
non-empty buffer, drain the buffer into one more `run_agent` task. -/
def dDrain (s : DState) : DState × List String :=
  if s.finished && s.inFlight.isNone && s.pending.isEmpty && !(s.buffer = "") then
    ({ s with buffer := "", inFlight := some s.buffer }, [s.buffer])
  else (s, [])

/-- Lines 160-161: terminate and return the conversation once finished,
idle, and fully drained. -/
def dReturn (s : DState) : Option (List Msg) :=
  if s.finished && s.inFlight.isNone && s.pending.isEmpty && (s.buffer = "") then
    some s.messages
  else none

/-- One full iteration of the dispatch loop body, the phases in source
order. The completion oracle is masked when a task was started this
iteration (a freshly created task is never already done). -/
def dstep (ev : QEvent) (doneNow : Bool) (agentResult : List Msg) (s : DState) : DStepOut :=
  let s1 := dRecv ev s
  let p2 := dDispatchPending s1
  let s3 := dComplete (doneNow && p2.2.isEmpty) agentResult p2.1
  let p4 := dDrain s3
  ⟨p4.1, p2.2 ++ p4.2, dReturn p4.1⟩

/-! ### The TTS serializer (`speak` in `holo_chan/tts.py`)

`speak` busy-waits on the module-level `is_speaking` flag, then sets it
and sends the text for synthesis in the same atomic segment (no `await`
between the final flag check, the assignment and the send); it suspends
awaiting the synthesized audio, starts playback, and schedules a watcher
task that clears the flag only after the playback object reports
completion. This is cooperative concurrency: code between two `await`
points runs atomically, and the scheduler chooses which runnable task
advances. The model gives every concurrent `speak` call a task id and a
phase per suspension point, and lets an adversarial schedule pick which
task advances next; the external events (synthesis reply arriving,
playback finishing) are folded into the corresponding task step. The
`playEnd` event stands for the watcher observing completed playback,
which happens after the audible playback has ended. -/

inductive SpeakPhase where
  | atLoop : SpeakPhase
  | awaitReply : SpeakPhase
  | playing : SpeakPhase
deriving DecidableEq

/-- Observable events of the serializer. -/
inductive TEv where
  | synthStart (i : Nat) : TEv
  | playStart (i : Nat) : TEv
  | playEnd (i : Nat) : TEv
deriving DecidableEq

/-- Global state: the `is_speaking` flag, the live `speak` tasks with
their phases, and the event log. -/
structure TTSState where
  is_speaking : Bool
  tasks : List (Nat × SpeakPhase)
  log : List TEv
deriving DecidableEq

/-- Phase of a task. -/
def findPhase (tasks : List (Nat × SpeakPhase)) (i : Nat) : Option SpeakPhase :=
  (tasks.find? (fun p => p.1 = i)).map Prod.snd

/-- Updates the phase of a task. -/
def setPhase (tasks : List (Nat × SpeakPhase)) (i : Nat) (ph : SpeakPhase) :
    List (Nat × SpeakPhase) :=
  tasks.map (fun p => if p.1 = i then (i, ph) else p)

/-- Removes a finished task. -/
def removeTask (tasks : List (Nat × SpeakPhase)) (i : Nat) :
    List (Nat × SpeakPhase) :=
  tasks.filter (fun p => ¬(p.1 = i))

/-- Advances task `i` by one atomic segment: at the loop head, a task
sleeps while `is_speaking` is set, otherwise sets the flag and sends the
text (synthesis starts); awaiting the reply, it receives the audio and
starts playback; playing, the playback completes and the watcher clears
the flag. A schedule entry naming no live task changes nothing. -/
def ttsStep (s : TTSState) (i : Nat) : TTSState :=
  match findPhase s.tasks i with
  | none => s
  | some SpeakPhase.atLoop =>
    if s.is_speaking then s
    else { is_speaking := true, tasks := setPhase s.tasks i SpeakPhase.awaitReply,
           log := s.log ++ [TEv.synthStart i] }
  | some SpeakPhase.awaitReply =>
    { s with tasks := setPhase s.tasks i SpeakPhase.playing,
             log := s.log ++ [TEv.playStart i] }
  | some SpeakPhase.playing =>
    { is_speaking := false, tasks := removeTask s.tasks i,
      log := s.log ++ [TEv.playEnd i] }

/-- Initial state: n concurrent `speak` calls all at the loop head, the
flag clear, empty log. -/
def ttsInit (n : Nat) : TTSState :=
  ⟨false, (List.range n).map (fun i => (i, SpeakPhase.atLoop)), []⟩

/-- Runs an arbitrary schedule of task advances. -/
def ttsRun (n : Nat) (sched : List Nat) : TTSState :=
  sched.foldl ttsStep (ttsInit n)

/-- State of the serialization checker: no utterance open, one being
synthesized, or one being played. -/
inductive LogPhase where
  | free : LogPhase
  | synth (i : Nat) : LogPhase
  | play (i : Nat) : LogPhase
deriving DecidableEq

/-- One checker transition: synthesis may start only when no utterance
is open; playback must belong to the utterance being synthesized; the
utterance closes when its playback ends. -/
def logStep : LogPhase → TEv → Option LogPhase
  | LogPhase.free, TEv.synthStart i => some (LogPhase.synth i)
  | LogPhase.synth i, TEv.playStart j => if i = j then some (LogPhase.play i) else none
  | LogPhase.play i, TEv.playEnd j => if i = j then some LogPhase.free else none
  | _, _ => none

/-- Runs the checker over a log. -/
def runLog : LogPhase → List TEv → Option LogPhase
  | m, [] => some m
  | m, e :: es =>
    match logStep m e with
    | some m2 => runLog m2 es
    | none => none

/-- A log is serialized when the checker accepts it: the synthesis and
playback windows of distinct utterances never overlap — in particular
the playback of utterance N ends before the synthesis or playback of
utterance N+1 begins. -/
def serialized (log : List TEv) : Bool :=
  (runLog LogPhase.free log).isSome

/-- Coupling between a checker state and the serializer state: the flag
is set exactly when an utterance is open, and the open utterance is the
unique task past the loop head, in the matching phase. -/
def Coupling (m : LogPhase) (s : TTSState) : Prop :=
  match m with
  | LogPhase.free =>
    s.is_speaking = false ∧ ∀ p ∈ s.tasks, p.2 = SpeakPhase.atLoop
  | LogPhase.synth i =>
    s.is_speaking = true
    ∧ (∀ p ∈ s.tasks, p.1 ≠ i → p.2 = SpeakPhase.atLoop)
    ∧ (∀ p ∈ s.tasks, p.1 = i → p.2 = SpeakPhase.awaitReply)
  | LogPhase.play i =>
    s.is_speaking = true
    ∧ (∀ p ∈ s.tasks, p.1 ≠ i → p.2 = SpeakPhase.atLoop)
    ∧ (∀ p ∈ s.tasks, p.1 = i → p.2 = SpeakPhase.playing)

/-! ### The PCM resampler (`_pcm_to_16k_mono` in
`holo_chan/integrations/discord/input.py`)

The byte buffer is modelled at the level of its signed 16-bit samples
(`np.frombuffer(pcm, dtype=np.int16)`), as a list of integers. The
float arithmetic of the generic branch (`np.interp` over a `linspace`
grid) is modelled exactly over the rationals; `astype(np.int16)`
truncates toward zero and is modelled the same way (sample values stay
within the int16 range, so no wrap occurs). -/

/-- Mean of the two channels of one stereo frame, as computed by
`stereo.mean(axis=1).astype(np.int16)`: a float mean truncated toward
zero. -/
def chanAvg (a b : Int) : Int :=
  Int.tdiv (a + b) 2

/-- Averages consecutive sample pairs (`stereo.reshape(-1, 2)` followed
by the channel mean). -/
def avgPairs : List Int → List Int
  | a :: b :: rest => chanAvg a b :: avgPairs rest
  | _ => []

/-- Every third element, `x[::3]`. -/
def every3 : List Int → List Int
  | [] => []
  | [a] => [a]
  | [a, _] => [a]
  | a :: _ :: _ :: rest => a :: every3 rest

/-- Truncation toward zero of a rational, the behaviour of
`astype(np.int16)` and of Python `int(...)` on in-range values. -/
def ratTrunc (q : Rat) : Int :=
  if q < 0 then -((-q).floor) else q.floor

/-- The generic-rate branch: `np.interp` of the mono signal over the
`np.linspace(0, len - 1, new_len)` grid, truncated back to int16. An
empty table (possible only for a single-sample input) is mapped to the
empty buffer. -/
def interpResample (mono : List Int) (sample_rate : Nat) : List Int :=
  if mono.isEmpty then []
  else
    let n := mono.length
    let rfac : Rat := (16000 : Rat) / (sample_rate : Rat)
    let new_len := max 1 (Int.toNat (ratTrunc (rfac * (n : Rat))))
    (List.range new_len).map fun k =>
      let x : Rat := if new_len = 1 then 0
        else ((k : Rat) * ((n : Rat) - 1)) / ((new_len : Rat) - 1)
      let i := Int.toNat x.floor
      let y0 : Rat := ((mono.getD i 0 : Int) : Rat)
      let y1 : Rat := ((mono.getD (i + 1) (mono.getD i 0) : Int) : Rat)
      ratTrunc (y0 + (y1 - y0) * (x - (i : Rat)))

/-- Model of `_pcm_to_16k_mono`: empty input yields empty output; an odd
sample count is truncated to even; the stereo frames are averaged to
mono; 16 kHz input passes through, 48 kHz input is decimated by stride
3, any other rate is linearly interpolated. -/
def pcm_to_16k_mono (samples : List Int) (sample_rate : Nat := 48000) : List Int :=
  if samples.isEmpty then []
  else
    let samples := if samples.length % 2 ≠ 0 then samples.dropLast else samples
    let mono := avgPairs samples
    if sample_rate = 16000 then mono
    else if sample_rate = 48000 then every3 mono
    else interpResample mono sample_rate

end HoloChan

namespace HoloChan

/-! ### Lemmas about the Python string helpers -/

theorem ws_not_boundary {c : Char} (h : isPyWs c = true) : isBoundaryChar c = false := by
  simp only [isPyWs, Bool.or_eq_true, decide_eq_true_eq] at h
  rcases h with ((((h | h) | h) | h) | h) | h <;> subst h <;> rfl

theorem boundary_not_ws {c : Char} (h : isBoundaryChar c = true) : isPyWs c = false := by
  simp only [isBoundaryChar, Bool.or_eq_true, decide_eq_true_eq] at h
  rcases h with ((((h | h) | h) | h) | h) | h <;> subst h <;> rfl

theorem noWsL_append (a b : List Char) : noWsL (a ++ b) = noWsL a ++ noWsL b := by
  simp [noWsL, List.filter_append]

theorem noWsL_dropWhile (l : List Char) : noWsL (l.dropWhile isPyWs) = noWsL l := by
  induction l with
  | nil => rfl
  | cons c cs ih =>
    by_cases h : isPyWs c = true
    · have h2 : noWsL (c :: cs) = noWsL cs := by simp [noWsL, h]
      rw [List.dropWhile_cons, if_pos h, ih, h2]
    · simp [List.dropWhile_cons, h]

theorem noWsL_reverse (l : List Char) : noWsL l.reverse = (noWsL l).reverse := by
  simp [noWsL, List.filter_reverse]

theorem noWsL_pyStripL (l : List Char) : noWsL (pyStripL l) = noWsL l := by
  unfold pyStripL
  rw [noWsL_reverse, noWsL_dropWhile, noWsL_reverse, noWsL_dropWhile, List.reverse_reverse]

theorem noWsL_of_pyStripL_nil {l : List Char} (h : pyStripL l = []) : noWsL l = [] := by
  rw [← noWsL_pyStripL l, h]; rfl

theorem countB_append (a b : List Char) : countB (a ++ b) = countB a + countB b := by
  simp [countB, List.countP_append]

theorem countB_dropWhile (l : List Char) : countB (l.dropWhile isPyWs) = countB l := by
  induction l with
  | nil => rfl
  | cons c cs ih =>
    by_cases h : isPyWs c = true
    · have h2 : countB (c :: cs) = countB cs := by
        simp [countB, List.countP_cons, ws_not_boundary h]
      rw [List.dropWhile_cons, if_pos h, ih, h2]
    · simp [List.dropWhile_cons, h]

theorem countB_reverse (l : List Char) : countB l.reverse = countB l := by
  simp [countB, List.countP_eq_length_filter, List.filter_reverse]

theorem countB_pyStripL (l : List Char) : countB (pyStripL l) = countB l := by
  unfold pyStripL
  rw [countB_reverse, countB_dropWhile, countB_reverse, countB_dropWhile]

theorem countB_eq_zero_of_any_eq_false {l : List Char}
    (h : l.any isBoundaryChar = false) : countB l = 0 := by
  simp only [List.any_eq_false] at h
  simp only [countB, List.countP_eq_zero]
  exact h

theorem pyStripL_boundary_singleton {c : Char} (h : isBoundaryChar c = true) :
    pyStripL [c] = [c] := by
  simp [pyStripL, List.dropWhile, boundary_not_ws h]

/-! ### Structure of the regex split -/

theorem splitPartsL_flatten : ∀ l : List Char, (splitPartsL l).flatten = l := by
  intro l
  induction l with
  | nil => rfl
  | cons c cs ih =>
    by_cases h : isBoundaryChar c = true
    · simp [splitPartsL, h, ih]
    · simp only [splitPartsL, h]
      cases hs : splitPartsL cs with
      | nil => rw [hs] at ih; simpa using ih.symm
      | cons p ps =>
        rw [hs] at ih
        simpa using ih

theorem splitPartsL_length : ∀ l : List Char,
    (splitPartsL l).length = 2 * countB l + 1 := by
  intro l
  induction l with
  | nil => rfl
  | cons c cs ih =>
    by_cases h : isBoundaryChar c = true
    · simp [splitPartsL, h, countB, List.countP_cons]
      simp [countB] at ih
      omega
    · simp only [splitPartsL, h, if_false, Bool.false_eq_true]
      cases hs : splitPartsL cs with
      | nil => rw [hs] at ih; simp at ih
      | cons p ps =>
        rw [hs] at ih
        simp only [List.length_cons] at ih ⊢
        simpa [countB, List.countP_cons, h] using ih

theorem splitPartsL_good : ∀ l : List Char, goodParts (splitPartsL l) = true := by
  intro l
  induction l with
  | nil => rfl
  | cons c cs ih =>
    by_cases h : isBoundaryChar c = true
    · simp [splitPartsL, h, goodParts, ih]
    · simp only [splitPartsL, h, if_false, Bool.false_eq_true]
      have hb : isBoundaryChar c = false := by
        simpa using h
      cases hs : splitPartsL cs with
      | nil => rw [hs] at ih; simp [goodParts] at ih
      | cons p ps =>
        rw [hs] at ih
        cases ps with
        | nil =>
          simp only [goodParts] at ih ⊢
          simp only [List.any_cons, Bool.not_or, Bool.and_eq_true, Bool.not_eq_true'] at ih ⊢
          exact ⟨hb, ih⟩
        | cons q qs =>
          simp only [goodParts] at ih ⊢
          simp only [List.any_cons, Bool.not_or, Bool.and_eq_true, Bool.not_eq_true'] at ih ⊢
          exact ⟨⟨⟨hb, ih.1.1⟩, ih.1.2⟩, ih.2⟩

theorem goodParts_odd : ∀ ps, goodParts ps = true → ps.length % 2 = 1
  | [], h => by simp [goodParts] at h
  | [_], _ => rfl
  | _ :: _ :: rest, h => by
    have hr : goodParts rest = true := by
      simp only [goodParts, Bool.and_eq_true] at h
      exact h.2
    have := goodParts_odd rest hr
    simp only [List.length_cons]
    omega

theorem goodParts_last_noB : ∀ ps, goodParts ps = true →
    countB (ps.getLast?.getD []) = 0
  | [], h => by simp [goodParts] at h
  | [p], h => by
    simp only [goodParts, Bool.not_eq_true'] at h
    simpa [List.getLast?] using countB_eq_zero_of_any_eq_false h
  | seg :: delim :: rest, h => by
    have hr : goodParts rest = true := by
      simp only [goodParts, Bool.and_eq_true] at h
      exact h.2
    have hne : rest ≠ [] := by
      intro hcon; rw [hcon] at hr; simp [goodParts] at hr
    cases rest with
    | nil => exact absurd rfl hne
    | cons r rs =>
      rw [List.getLast?_cons_cons, List.getLast?_cons_cons]
      exact goodParts_last_noB (r :: rs) hr

/-! ### The emission loop -/

theorem emitSentencesL_count : ∀ ps, goodParts ps = true →
    (emitSentencesL ps).length = (ps.length - 1) / 2
  | [], h => by simp [goodParts] at h
  | [_], _ => by simp [emitSentencesL]
  | seg :: delim :: rest, h => by
    have h3 : goodParts rest = true := by
      simp only [goodParts, Bool.and_eq_true] at h
      exact h.2
    have hdelim : ∃ c, delim = [c] ∧ isBoundaryChar c = true := by
      simp only [goodParts, Bool.and_eq_true] at h
      have := h.1.2
      cases delim with
      | nil => simp at this
      | cons d ds =>
        cases ds with
        | nil => exact ⟨d, rfl, this⟩
        | cons e es => simp at this
    obtain ⟨c, hc, hcb⟩ := hdelim
    have ih := emitSentencesL_count rest h3
    have hodd := goodParts_odd rest h3
    have hcons : ∃ x, emitSentencesL (seg :: delim :: rest) = x :: emitSentencesL rest := by
      by_cases hseg : pyStripL seg = []
      · refine ⟨delim, ?_⟩
        subst hc
        simp [emitSentencesL, hseg, pyStripL_boundary_singleton hcb]
      · exact ⟨pyStripL seg ++ delim, by simp [emitSentencesL, hseg]⟩
    obtain ⟨x, hx⟩ := hcons
    rw [hx]
    simp only [List.length_cons, ih]
    omega

theorem emitSentencesL_roundtrip : ∀ ps, goodParts ps = true →
    noWsL ((emitSentencesL ps).flatten ++ pyStripL (ps.getLast?.getD [])) =
      noWsL ps.flatten
  | [], h => by simp [goodParts] at h
  | [p], _ => by
    have hlast : (([p] : List (List Char)).getLast?.getD []) = p := by simp
    simp only [emitSentencesL, hlast, List.flatten_nil, List.flatten_cons,
      List.append_nil, List.nil_append]
    rw [noWsL_pyStripL]
  | seg :: delim :: rest, h => by
    have h3 : goodParts rest = true := by
      simp only [goodParts, Bool.and_eq_true] at h
      exact h.2
    have hdelim : ∃ c, delim = [c] ∧ isBoundaryChar c = true := by
      simp only [goodParts, Bool.and_eq_true] at h
      have := h.1.2
      cases delim with
      | nil => simp at this
      | cons d ds =>
        cases ds with
        | nil => exact ⟨d, rfl, this⟩
        | cons e es => simp at this
    obtain ⟨c, hc, hcb⟩ := hdelim
    have hne : rest ≠ [] := by
      intro hcon; rw [hcon] at h3; simp [goodParts] at h3
    have ih := emitSentencesL_roundtrip rest h3
    have ih2 : noWsL (emitSentencesL rest).flatten ++
        noWsL (pyStripL (rest.getLast?.getD [])) = noWsL rest.flatten := by
      rw [← noWsL_append]; exact ih
    have hlast : (seg :: delim :: rest).getLast? = rest.getLast? := by
      cases rest with
      | nil => exact absurd rfl hne
      | cons r rs => rw [List.getLast?_cons_cons, List.getLast?_cons_cons]
    rw [hlast]
    by_cases hseg : pyStripL seg = []
    · have hsegWs : noWsL seg = [] := noWsL_of_pyStripL_nil hseg
      subst hc
      have hstep : emitSentencesL (seg :: [c] :: rest) = [c] :: emitSentencesL rest := by
        simp [emitSentencesL, hseg, pyStripL_boundary_singleton hcb]
      rw [hstep]
      simp only [List.flatten_cons, List.append_assoc, noWsL_append, hsegWs,
        List.nil_append, ih2]
    · have hstep : emitSentencesL (seg :: delim :: rest) =
          (pyStripL seg ++ delim) :: emitSentencesL rest := by
        simp [emitSentencesL, hseg]
      rw [hstep]
      have hsegN : noWsL (pyStripL seg) = noWsL seg := noWsL_pyStripL seg
      simp only [List.flatten_cons, List.append_assoc, noWsL_append, hsegN, ih2]

/-! ### String-level lemmas -/

theorem strToList_append (a b : String) : (a ++ b).toList = a.toList ++ b.toList := rfl

theorem joinLS_map_mk (ls : List (List Char)) : joinLS (ls.map String.mk) = ls.flatten := by
  induction ls with
  | nil => rfl
  | cons a as ih =>
    simp only [List.map_cons, joinLS, List.flatten_cons] at ih ⊢
    rw [ih]
    rfl

theorem joinLS_append (a b : List String) : joinLS (a ++ b) = joinLS a ++ joinLS b := by
  simp [joinLS, List.map_append]

theorem strToList_join (xs : List String) : (String.join xs).toList = joinLS xs := by
  have gen : ∀ (ys : List String) (acc : String),
      (ys.foldl (fun r s => r ++ s) acc).toList = acc.toList ++ joinLS ys := by
    intro ys
    induction ys with
    | nil => intro acc; simp [joinLS]
    | cons y ys ih =>
      intro acc
      simp only [List.foldl_cons]
      rw [ih (acc ++ y), strToList_append]
      simp [joinLS, List.append_assoc]
  have h := gen xs ""
  have h0 : ("" : String).toList = [] := rfl
  rw [h0, List.nil_append] at h
  exact h

/-! ### Properties of one split step -/

theorem scs_count (t : String) :
    (split_complete_sentences t).1.length = countB t.toList := by
  have hlen := splitPartsL_length t.toList
  have hgood := splitPartsL_good t.toList
  simp only [split_complete_sentences]
  by_cases h1 : (splitPartsL t.toList).length = 1
  · rw [if_pos h1]
    simp only [List.length_nil]
    omega
  · rw [if_neg h1]
    simp only [List.length_map]
    rw [emitSentencesL_count _ hgood]
    omega

theorem scs_roundtrip (t : String) :
    noWsL (joinLS (split_complete_sentences t).1 ++ (split_complete_sentences t).2.toList)
      = noWsL t.toList := by
  have hgood := splitPartsL_good t.toList
  have hflat := splitPartsL_flatten t.toList
  have hodd := goodParts_odd _ hgood
  simp only [split_complete_sentences]
  by_cases h1 : (splitPartsL t.toList).length = 1
  · rw [if_pos h1]
    simp only [joinLS, List.map_nil, List.flatten_nil, List.nil_append]
    exact noWsL_pyStripL t.toList
  · rw [if_neg h1, if_pos hodd]
    rw [joinLS_map_mk]
    have h := emitSentencesL_roundtrip _ hgood
    rw [hflat] at h
    exact h

theorem scs_rem_noB (t : String) :
    countB (split_complete_sentences t).2.toList = 0 := by
  have hlen := splitPartsL_length t.toList
  have hgood := splitPartsL_good t.toList
  have hodd := goodParts_odd _ hgood
  simp only [split_complete_sentences]
  by_cases h1 : (splitPartsL t.toList).length = 1
  · rw [if_pos h1]
    show countB (pyStrip t).toList = 0
    have h2 : countB (pyStrip t).toList = countB t.toList := countB_pyStripL t.toList
    omega
  · rw [if_neg h1, if_pos hodd]
    show countB (pyStripL ((splitPartsL t.toList).getLast?.getD [])) = 0
    rw [countB_pyStripL]
    exact goodParts_last_noB _ hgood

/-! ### The aggregator over a fragment stream -/

theorem countB_glue (buf f : String) :
    countB (pyStrip (buf ++ " " ++ f)).toList = countB buf.toList + countB f.toList := by
  show countB (pyStripL (buf ++ " " ++ f).toList) = _
  rw [countB_pyStripL, strToList_append, strToList_append, countB_append, countB_append]
  have hsp : countB " ".toList = 0 := by decide
  omega

theorem noWs_glue (buf f : String) :
    noWsL (pyStrip (buf ++ " " ++ f)).toList = noWsL buf.toList ++ noWsL f.toList := by
  show noWsL (pyStripL (buf ++ " " ++ f).toList) = _
  rw [noWsL_pyStripL, strToList_append, strToList_append, noWsL_append, noWsL_append]
  have hsp : noWsL " ".toList = [] := by decide
  rw [hsp, List.append_nil]

theorem aggRun_loop : ∀ (frags : List String) (acc : List String) (buf : String),
    countB buf.toList = 0 →
    ((frags.foldl aggStep (acc, buf)).1.length = acc.length + countB (concatFrags frags)
    ∧ noWsL (joinLS (frags.foldl aggStep (acc, buf)).1 ++
        (frags.foldl aggStep (acc, buf)).2.toList)
        = noWsL (joinLS acc ++ buf.toList ++ concatFrags frags)
    ∧ countB ((frags.foldl aggStep (acc, buf)).2.toList) = 0)
  | [], acc, buf, h => by
    refine ⟨by simp [concatFrags, countB], ?_, h⟩
    simp [concatFrags, joinLS]
  | f :: fs, acc, buf, h => by
    have hstep : aggStep (acc, buf) f =
        (acc ++ (split_complete_sentences (pyStrip (buf ++ " " ++ f))).1,
         (split_complete_sentences (pyStrip (buf ++ " " ++ f))).2) := rfl
    set buf0 := pyStrip (buf ++ " " ++ f) with hbuf0
    have hrem := scs_rem_noB buf0
    have ih := aggRun_loop fs (acc ++ (split_complete_sentences buf0).1)
      (split_complete_sentences buf0).2 hrem
    have hfold : (f :: fs).foldl aggStep (acc, buf) =
        fs.foldl aggStep (acc ++ (split_complete_sentences buf0).1,
          (split_complete_sentences buf0).2) := by
      rw [List.foldl_cons, hstep]
    rw [hfold]
    have hcount := scs_count buf0
    have hglue := countB_glue buf f
    have hconcat : concatFrags (f :: fs) = f.toList ++ concatFrags fs := by
      simp [concatFrags]
    refine ⟨?_, ?_, ih.2.2⟩
    · rw [ih.1, hconcat, countB_append, List.length_append, hcount, hglue]
      omega
    · rw [ih.2.1, hconcat, joinLS_append]
      have hrt := scs_roundtrip buf0
      have hng := noWs_glue buf f
      rw [hbuf0] at hcount
      calc noWsL (joinLS acc ++ joinLS (split_complete_sentences buf0).1 ++
              (split_complete_sentences buf0).2.toList ++ concatFrags fs)
          = noWsL (joinLS acc) ++
              noWsL (joinLS (split_complete_sentences buf0).1 ++
                (split_complete_sentences buf0).2.toList) ++
              noWsL (concatFrags fs) := by
            simp [noWsL_append, List.append_assoc]
        _ = noWsL (joinLS acc) ++ noWsL buf0.toList ++ noWsL (concatFrags fs) := by
            rw [hrt]
        _ = noWsL (joinLS acc) ++ (noWsL buf.toList ++ noWsL f.toList) ++
              noWsL (concatFrags fs) := by
            rw [hbuf0, hng]
        _ = noWsL (joinLS acc ++ buf.toList ++ (f.toList ++ concatFrags fs)) := by
            simp [noWsL_append, List.append_assoc]

theorem goodParts_delim {seg delim : List Char} {rest : List (List Char)}
    (h : goodParts (seg :: delim :: rest) = true) :
    ∃ c, delim = [c] ∧ isBoundaryChar c = true ∧ goodParts rest = true := by
  simp only [goodParts, Bool.and_eq_true] at h
  obtain ⟨⟨_, hd⟩, hrest⟩ := h
  cases delim with
  | nil => simp at hd
  | cons d ds =>
    cases ds with
    | nil => exact ⟨d, rfl, hd, hrest⟩
    | cons e es => simp at hd

/-! ### Claim C7 -/

/-- Claim C7, as stated, is false: the claim asks that concatenating the
emitted sentences with their boundary characters removed, together with
the remaining buffer, reconstruct the original text up to whitespace.
The emitted sentences keep their boundary characters, so for the single
fragment "ab." the reconstruction drops the final period and differs
from the original text even after discarding all whitespace. -/
theorem aggregator_roundtrip_removed_cex :
    noWsS (noBdryS (String.join (aggRun ["ab."]).1) ++ (aggRun ["ab."]).2)
      ≠ noWsS "ab." := by
  decide

/-- Claim C7 (amended): for any sequence of transcript fragments whose
concatenation contains k sentence-boundary punctuation characters, the
aggregator emits exactly k sentences before the end-of-stream flush, and
concatenating the emitted sentences (keeping their boundary characters)
together with the remaining buffer reconstructs the original text up to
whitespace. -/
theorem aggregator_count_and_roundtrip (frags : List String) :
    (aggRun frags).1.length = countB (concatFrags frags)
    ∧ noWsS (String.join (aggRun frags).1 ++ (aggRun frags).2)
        = noWsS (String.mk (concatFrags frags)) := by
  have h := aggRun_loop frags [] "" (by decide)
  have h3 : noWsL (joinLS (aggRun frags).1 ++ (aggRun frags).2.toList)
      = noWsL (concatFrags frags) := by
    have h2 := h.2.1
    simpa [aggRun, joinLS] using h2
  refine ⟨by simpa [aggRun] using h.1, ?_⟩
  show String.mk (noWsL ((String.join (aggRun frags).1 ++ (aggRun frags).2).toList))
      = String.mk (noWsL (String.mk (concatFrags frags)).toList)
  rw [strToList_append, strToList_join]
  exact congrArg String.mk h3

/-! ### Claim C8 -/

/-- Claim C8, as stated, is false: when the buffer splits at a boundary
whose preceding segment is empty, the code does emit the bare delimiter
as a sentence. Splitting the buffer text consisting of a single period
emits the one-character sentence consisting of that boundary character. -/
theorem bare_delimiter_emitted_cex :
    (split_complete_sentences ".").1 = ["."] ∧ isBoundaryChar '.' = true := by
  decide

/-- Claim C8 (amended): whenever the buffer splits at a punctuation
boundary whose preceding segment is empty or whitespace-only, the
whitespace segment is discarded and the bare delimiter alone is emitted
as a sentence for that boundary (the delimiter, never being whitespace,
always passes the second guard of the emission loop). -/
theorem bare_delimiter_split (t : String) (seg delim : List Char) (rest : List (List Char))
    (hsplit : splitPartsL t.toList = seg :: delim :: rest)
    (hseg : pyStripL seg = []) :
    (split_complete_sentences t).1 = String.mk delim :: (emitSentencesL rest).map String.mk := by
  have hgood := splitPartsL_good t.toList
  rw [hsplit] at hgood
  obtain ⟨c, hc, hcb, _⟩ := goodParts_delim hgood
  simp only [split_complete_sentences, hsplit]
  have hne1 : ¬((seg :: delim :: rest).length = 1) := by simp
  rw [if_neg hne1]
  subst hc
  have hstep : emitSentencesL (seg :: [c] :: rest) = [c] :: emitSentencesL rest := by
    simp [emitSentencesL, hseg, pyStripL_boundary_singleton hcb]
  show (emitSentencesL (seg :: [c] :: rest)).map String.mk = _
  rw [hstep, List.map_cons]

/-- Witness for the amended claim C8 at the concrete buffer ".". -/
theorem bare_delimiter_split_witness :
    splitPartsL ".".toList = [[], ['.'], []] ∧ pyStripL ([] : List Char) = []
    ∧ (split_complete_sentences ".").1 = String.mk ['.'] :: (emitSentencesL [[]]).map String.mk :=
  ⟨by decide, rfl, bare_delimiter_split "." [] ['.'] [[]] (by decide) rfl⟩

/-! ### Claim C10 -/

/-- Claim C10: `parse_tool_call` never validates that the tool-call name
is a string. For every message whose JSON parse is an object whose
tool-call value is an object with a "name" key of any JSON type, the
name value is returned untouched as the tool name (with the arguments
object, defaulting to empty); within that shape, only a missing "name"
key or a non-object "arguments" value causes rejection. -/
theorem parse_tool_call_name_untyped (msg : String)
    (P C : List (String × JValue))
    (hp : json_loads msg = some (JValue.obj P))
    (htc : jlookup P TOOL_CALL_TAG = some (JValue.obj C)) :
    (∀ (v : JValue) (A : List (String × JValue)),
        jlookup C "name" = some v →
        (jlookup C "arguments" = some (JValue.obj A) ∨
          (jlookup C "arguments" = none ∧ A = [])) →
        parse_tool_call msg = some (v, A))
    ∧ (jlookup C "name" = none → parse_tool_call msg = none)
    ∧ (∀ (v w : JValue), jlookup C "name" = some v →
        jlookup C "arguments" = some w → (∀ B, w ≠ JValue.obj B) →
        parse_tool_call msg = none) := by
  refine ⟨?_, ?_, ?_⟩
  · intro v A hname hargs
    unfold parse_tool_call
    rw [hp]; dsimp only
    rw [htc]; dsimp only
    rw [hname]; dsimp only
    rcases hargs with h | ⟨h, hA⟩
    · rw [h]
      rfl
    · rw [h]
      subst hA
      rfl
  · intro hname
    unfold parse_tool_call
    rw [hp]; dsimp only
    rw [htc]; dsimp only
    rw [hname]
  · intro v w hname hargs hnotobj
    unfold parse_tool_call
    rw [hp]; dsimp only
    rw [htc]; dsimp only
    rw [hname]; dsimp only
    rw [hargs]
    cases w with
    | obj B => exact absurd rfl (hnotobj B)
    | null => rfl
    | bool b => rfl
    | num lx => rfl
    | str s => rfl
    | arr xs => rfl

/-- Witness for claim C10 at the concrete input from the claim: the
message whose tool-call name is the JSON number 5 parses to a tool call
whose name is that number. -/
theorem parse_tool_call_name_untyped_witness :
    json_loads "\x7b\"tool_calls\": \x7b\"name\": 5, \"arguments\": \x7b\x7d\x7d\x7d"
      = some (JValue.obj [(TOOL_CALL_TAG,
          JValue.obj [("name", JValue.num "5"), ("arguments", JValue.obj [])])])
    ∧ jlookup [("name", JValue.num "5"), ("arguments", JValue.obj [])] "name"
        = some (JValue.num "5")
    ∧ parse_tool_call "\x7b\"tool_calls\": \x7b\"name\": 5, \"arguments\": \x7b\x7d\x7d\x7d"
        = some (JValue.num "5", []) := by
  refine ⟨by rfl, by rfl, ?_⟩
  exact (parse_tool_call_name_untyped _ _ _ (by rfl) (by rfl)).1
    (JValue.num "5") [] (by rfl) (Or.inl (by rfl))

/-! ### Agent loop helper lemmas -/

theorem agentLoop_exc (comp : Nat → List Msg → CompRes) (sinkOk : Nat → String → Bool)
    (fuel : Nat) (msgs : List Msg) (ci : Nat) (sp : List String)
    (h : comp ci msgs = CompRes.exc) :
    agentLoop comp sinkOk (fuel + 1) msgs ci sp = Except.ok ⟨msgs, sp, ci + 1⟩ := by
  simp [agentLoop, h]

theorem agentLoop_plain (comp : Nat → List Msg → CompRes) (sinkOk : Nat → String → Bool)
    (fuel : Nat) (msgs : List Msg) (ci : Nat) (sp : List String) (s : String)
    (hcomp : comp ci msgs = CompRes.val (some s))
    (hne : pyStrip s ≠ "")
    (hparse : parse_tool_call (pyStrip s) = none)
    (hsink : sinkOk sp.length (pyStrip s) = true) :
    agentLoop comp sinkOk (fuel + 1) msgs ci sp =
      Except.ok ⟨msgs ++ [build_message "assistant" (pyStrip s)], sp ++ [pyStrip s], ci + 1⟩ := by
  simp [agentLoop, hcomp, hparse, hne, hsink]

theorem agentLoop_total (comp : Nat → List Msg → CompRes) (sinkOk : Nat → String → Bool)
    (hsink : ∀ n s, sinkOk n s = true)
    (hname : ∀ ci msgs s name args, comp ci msgs = CompRes.val (some s) →
      parse_tool_call (pyStrip s) = some (name, args) → hashableName name = true) :
    ∀ (fuel : Nat) (msgs : List Msg) (ci : Nat) (sp : List String),
      ∃ ret : AgentRet,
        agentLoop comp sinkOk fuel msgs ci sp = Except.ok ret ∧
        ∃ tail, ret.messages = msgs ++ tail := by
  intro fuel
  induction fuel with
  | zero =>
    intro msgs ci sp
    exact ⟨⟨msgs, sp, ci⟩, rfl, [], by simp⟩
  | succ fuel ih =>
    intro msgs ci sp
    cases hc : comp ci msgs with
    | exc => exact ⟨⟨msgs, sp, ci + 1⟩, by simp [agentLoop, hc], [], by simp⟩
    | val raw =>
      cases hp : parse_tool_call (pyStrip (raw.getD "")) with
      | none =>
        by_cases hemp : pyStrip (raw.getD "") = ""
        · have hpe : parse_tool_call "" = none := rfl
          exact ⟨⟨msgs, sp, ci + 1⟩, by simp [agentLoop, hc, hp, hemp, hpe], [], by simp⟩
        · refine ⟨⟨msgs ++ [build_message "assistant" (pyStrip (raw.getD ""))],
            sp ++ [pyStrip (raw.getD "")], ci + 1⟩, ?_, _, rfl⟩
          simp [agentLoop, hc, hp, hemp, hsink]
      | some pr =>
        obtain ⟨name, args⟩ := pr
        by_cases hstop : isStopName name = true
        · exact ⟨⟨msgs ++ [build_message "assistant" (pyStrip (raw.getD ""))], sp, ci + 1⟩,
            by simp [agentLoop, hc, hp, hstop], _, rfl⟩
        · have hh : hashableName name = true := by
            cases raw with
            | none =>
              have hnone : parse_tool_call (pyStrip ((none : Option String).getD "")) = none := rfl
              rw [hnone] at hp
              exact Option.noConfusion hp
            | some s => exact hname ci msgs s name args hc hp
          have hct : ∃ res, call_tool name args = Except.ok res := by
            cases name with
            | arr xs => simp [hashableName] at hh
            | obj fs => simp [hashableName] at hh
            | null => exact ⟨_, rfl⟩
            | bool b => exact ⟨_, rfl⟩
            | num lx => exact ⟨_, rfl⟩
            | str s2 => exact ⟨_, rfl⟩
          obtain ⟨res, hres⟩ := hct
          obtain ⟨ret, hret, tail, htail⟩ := ih
            (msgs ++ [build_message "assistant" (pyStrip (raw.getD "")),
              build_message "user" ("Result of `" ++ pyStr name ++ "`: " ++ pyOptStr res)])
            (ci + 1) sp
          refine ⟨ret, ?_, [build_message "assistant" (pyStrip (raw.getD "")),
              build_message "user" ("Result of `" ++ pyStr name ++ "`: " ++ pyOptStr res)]
                ++ tail, ?_⟩
          · simpa [agentLoop, hc, hp, hstop, hres] using hret
          · rw [htail]
            simp

/-! ### Claim C2 -/

/-- Claim C2: when the model completion returns a string whose trimmed
form is non-empty and does not parse as a tool call, `run_agent` appends
exactly one assistant turn carrying the trimmed reply as the last turn
of the returned conversation, calls the output sink exactly once with
that same text, and terminates after that single model invocation. -/
theorem run_agent_plain_reply (k q s : String) (ms0 : List Msg)
    (comp : Nat → List Msg → CompRes) (sinkOk : Nat → String → Bool)
    (hk : k ≠ "")
    (hcomp : comp 0 (ms0 ++ [build_message "user" q]) = CompRes.val (some s))
    (hne : pyStrip s ≠ "")
    (hparse : parse_tool_call (pyStrip s) = none)
    (hsink : sinkOk 0 (pyStrip s) = true) :
    run_agent (some k) q (some ms0) comp sinkOk =
      Except.ok ⟨ms0 ++ [build_message "user" q, build_message "assistant" (pyStrip s)],
        [pyStrip s], 1⟩ := by
  have hcond : ¬((some k : Option String) = none ∨ (some k : Option String) = some "") := by
    simp [hk]
  unfold run_agent
  rw [if_neg hcond]
  have h := agentLoop_plain comp sinkOk 9 (ms0 ++ [build_message "user" q]) 0 [] s
    hcomp hne hparse hsink
  simpa using h

/-- Witness for claim C2 at the canned reply from the specification. -/
theorem run_agent_plain_reply_witness :
    ("key" : String) ≠ ""
    ∧ (fun (_ : Nat) (_ : List Msg) => CompRes.val (some "Hello there.")) 0
        ([build_message "system" "sys"] ++ [build_message "user" "Hi"])
        = CompRes.val (some "Hello there.")
    ∧ pyStrip "Hello there." ≠ ""
    ∧ parse_tool_call (pyStrip "Hello there.") = none
    ∧ run_agent (some "key") "Hi" (some [build_message "system" "sys"])
        (fun _ _ => CompRes.val (some "Hello there."))
        (fun _ _ => true) =
      Except.ok ⟨[build_message "system" "sys"] ++
          [build_message "user" "Hi", build_message "assistant" (pyStrip "Hello there.")],
        [pyStrip "Hello there."], 1⟩ := by
  refine ⟨by decide, rfl, by decide, by rfl, ?_⟩
  exact run_agent_plain_reply "key" "Hi" "Hello there." [build_message "system" "sys"]
    (fun _ _ => CompRes.val (some "Hello there.")) (fun _ _ => true)
    (by decide) rfl (by decide) (by rfl) rfl

/-! ### Claim C3 -/

/-- Claim C3: when the model completion raises, the exception is not
propagated: `run_agent` returns the conversation accumulated so far,
which is the starting conversation plus the user turn appended for this
call — so the user turn is present and the first turn is still the
original first (system) turn. The last conjunct covers a raise at any
later turn as well: whenever the loop reaches a completion call that
raises, it stops there and returns exactly the conversation accumulated
up to that call. -/
theorem run_agent_completion_error (k q : String) (ms0 : List Msg)
    (comp : Nat → List Msg → CompRes) (sinkOk : Nat → String → Bool)
    (hk : k ≠ "")
    (herr : ∀ ci msgs, comp ci msgs = CompRes.exc) :
    run_agent (some k) q (some ms0) comp sinkOk
        = Except.ok ⟨ms0 ++ [build_message "user" q], [], 1⟩
    ∧ build_message "user" q ∈ ms0 ++ [build_message "user" q]
    ∧ (∀ m rest, ms0 = m :: rest → (ms0 ++ [build_message "user" q]).head? = some m)
    ∧ (∀ (comp2 : Nat → List Msg → CompRes) (fuel ci : Nat) (msgs : List Msg)
        (sp : List String), comp2 ci msgs = CompRes.exc →
        agentLoop comp2 sinkOk (fuel + 1) msgs ci sp = Except.ok ⟨msgs, sp, ci + 1⟩) := by
  have hcond : ¬((some k : Option String) = none ∨ (some k : Option String) = some "") := by
    simp [hk]
  refine ⟨?_, by simp, ?_, ?_⟩
  · unfold run_agent
    rw [if_neg hcond]
    have h := agentLoop_exc comp sinkOk 9 (ms0 ++ [build_message "user" q]) 0 []
      (herr 0 _)
    simpa using h
  · intro m rest hm
    subst hm
    simp
  · intro comp2 fuel ci msgs sp h
    exact agentLoop_exc comp2 sinkOk fuel msgs ci sp h

/-- Witness for claim C3 with an always-raising completion. -/
theorem run_agent_completion_error_witness :
    ("key" : String) ≠ ""
    ∧ (∀ (ci : Nat) (msgs : List Msg),
        (fun (_ : Nat) (_ : List Msg) => CompRes.exc) ci msgs = CompRes.exc)
    ∧ run_agent (some "key") "Hi" (some [build_message "system" "sys"])
        (fun _ _ => CompRes.exc) (fun _ _ => true)
        = Except.ok ⟨[build_message "system" "sys"] ++ [build_message "user" "Hi"], [], 1⟩ := by
  refine ⟨by decide, fun _ _ => rfl, ?_⟩
  exact (run_agent_completion_error "key" "Hi" [build_message "system" "sys"]
    (fun _ _ => CompRes.exc) (fun _ _ => true) (by decide) (fun _ _ => rfl)).1

/-! ### Claim C4 -/

/-- Claim C4, as stated, is false: `run_agent` does not return for every
behaviour of the output sink — the `speak` call is awaited outside any
try block, so a sink whose `speak` raises propagates the exception; and
a tool call whose parsed name is a JSON array makes the registry lookup
`TOOLS.get(name)` raise `TypeError` on the unhashable key, which is also
uncaught. Both failures are exhibited on concrete inputs. -/
theorem run_agent_raises_cex :
    run_agent (some "key") "Hi" (some [build_message "system" "sys"])
      (fun _ _ => CompRes.val (some "hi")) (fun _ _ => false)
      = Except.error AgentErr.speakExc
    ∧ run_agent (some "key") "Hi" (some [build_message "system" "sys"])
      (fun _ _ => CompRes.val
        (some "\x7b\"tool_calls\": \x7b\"name\": [1], \"arguments\": \x7b\x7d\x7d\x7d"))
      (fun _ _ => true)
      = Except.error AgentErr.toolTypeExc :=
  ⟨rfl, rfl⟩

/-- Claim C4 (amended): for every user query, starting conversation and
completion behaviour, provided the API key is set, every `speak` call
returns normally, and no parsed tool-call name is an unhashable JSON
value (array or object), `run_agent` returns the updated conversation —
on model error, stop tool, empty reply, plain reply, tool rounds and at
the turn cap — extending the initial conversation with the user turn,
and never raises past its call boundary. -/
theorem run_agent_total (k q : String) (ms0 : Option (List Msg))
    (comp : Nat → List Msg → CompRes) (sinkOk : Nat → String → Bool)
    (hk : k ≠ "")
    (hsink : ∀ n s, sinkOk n s = true)
    (hname : ∀ ci msgs s name args, comp ci msgs = CompRes.val (some s) →
      parse_tool_call (pyStrip s) = some (name, args) → hashableName name = true) :
    ∃ ret : AgentRet, run_agent (some k) q ms0 comp sinkOk = Except.ok ret ∧
      ∃ tail, ret.messages =
        (ms0.getD [build_message "system" FULL_SYSTEM_PROMPT])
          ++ build_message "user" q :: tail := by
  have hcond : ¬((some k : Option String) = none ∨ (some k : Option String) = some "") := by
    simp [hk]
  obtain ⟨ret, hret, tail, htail⟩ := agentLoop_total comp sinkOk hsink hname MAX_TURNS
    ((ms0.getD [build_message "system" FULL_SYSTEM_PROMPT]) ++ [build_message "user" q]) 0 []
  refine ⟨ret, ?_, tail, by rw [htail]; simp⟩
  unfold run_agent
  rw [if_neg hcond]
  exact hret

/-- Witness for the amended claim C4 with an always-raising completion
and an always-succeeding sink. -/
theorem run_agent_total_witness :
    ("key" : String) ≠ ""
    ∧ (∀ (n : Nat) (s : String), (fun (_ : Nat) (_ : String) => true) n s = true)
    ∧ (∀ (ci : Nat) (msgs : List Msg) (s : String) (name : JValue)
        (args : List (String × JValue)),
        (fun (_ : Nat) (_ : List Msg) => CompRes.exc) ci msgs = CompRes.val (some s) →
        parse_tool_call (pyStrip s) = some (name, args) → hashableName name = true)
    ∧ ∃ ret : AgentRet,
        run_agent (some "key") "Hi" (some [build_message "system" "sys"])
          (fun _ _ => CompRes.exc) (fun _ _ => true) = Except.ok ret ∧
        ∃ tail, ret.messages =
          ((some [build_message "system" "sys"]).getD
            [build_message "system" FULL_SYSTEM_PROMPT])
            ++ build_message "user" "Hi" :: tail := by
  have hname : ∀ (ci : Nat) (msgs : List Msg) (s : String) (name : JValue)
      (args : List (String × JValue)),
      (fun (_ : Nat) (_ : List Msg) => CompRes.exc) ci msgs = CompRes.val (some s) →
      parse_tool_call (pyStrip s) = some (name, args) → hashableName name = true := by
    intro ci msgs s name args h hp2
    exact CompRes.noConfusion h
  refine ⟨by decide, fun _ _ => rfl, hname, ?_⟩
  exact run_agent_total "key" "Hi" (some [build_message "system" "sys"])
    (fun _ _ => CompRes.exc) (fun _ _ => true) (by decide) (fun _ _ => rfl) hname

/-! ### Dispatch loop helper lemmas -/

theorem dRecv_inFlight (ev : QEvent) (s : DState) : (dRecv ev s).inFlight = s.inFlight := by
  cases ev with
  | timeout => rfl
  | item t => cases t <;> rfl

theorem dDispatchPending_fire {s : DState}
    (h : (s.inFlight.isNone && !s.pending.isEmpty) = true) :
    dDispatchPending s =
      ({ s with pending := [], inFlight := some (pyStrip (joinSpace s.pending)) },
       [pyStrip (joinSpace s.pending)]) := by
  simp only [dDispatchPending]
  rw [if_pos h]

theorem dDispatchPending_skip {s : DState}
    (h : ¬((s.inFlight.isNone && !s.pending.isEmpty) = true)) :
    dDispatchPending s = (s, []) := by
  simp only [dDispatchPending]
  rw [if_neg h]

theorem dComplete_fire {d : Bool} {res : List Msg} {s : DState}
    (h : (s.inFlight.isSome && d) = true) :
    dComplete d res s = { s with inFlight := none, messages := res } := by
  simp only [dComplete]
  rw [if_pos h]

theorem dComplete_skip {d : Bool} {res : List Msg} {s : DState}
    (h : ¬((s.inFlight.isSome && d) = true)) :
    dComplete d res s = s := by
  simp only [dComplete]
  rw [if_neg h]

theorem dComplete_cases (d : Bool) (res : List Msg) (s : DState) :
    (dComplete d res s = { s with inFlight := none, messages := res }
      ∧ s.inFlight.isSome = true ∧ d = true)
    ∨ dComplete d res s = s := by
  by_cases h : (s.inFlight.isSome && d) = true
  · have h2 := (Bool.and_eq_true _ _).mp h
    exact Or.inl ⟨dComplete_fire h, h2.1, h2.2⟩
  · exact Or.inr (dComplete_skip h)

theorem dDrain_fire {s : DState}
    (h : (s.finished && s.inFlight.isNone && s.pending.isEmpty && !(s.buffer = "")) = true) :
    dDrain s = ({ s with buffer := "", inFlight := some s.buffer }, [s.buffer]) := by
  simp only [dDrain]
  rw [if_pos h]

theorem dDrain_skip {s : DState}
    (h : ¬((s.finished && s.inFlight.isNone && s.pending.isEmpty && !(s.buffer = "")) = true)) :
    dDrain s = (s, []) := by
  simp only [dDrain]
  rw [if_neg h]

theorem dDrain_cases (s : DState) :
    (dDrain s = ({ s with buffer := "", inFlight := some s.buffer }, [s.buffer])
      ∧ s.finished = true ∧ s.inFlight = none ∧ s.pending = [] ∧ s.buffer ≠ "")
    ∨ dDrain s = (s, []) := by
  by_cases h : (s.finished && s.inFlight.isNone && s.pending.isEmpty && !(s.buffer = "")) = true
  · refine Or.inl ⟨dDrain_fire h, ?_, ?_, ?_, ?_⟩
    · simp only [Bool.and_eq_true] at h
      exact h.1.1.1
    · simp only [Bool.and_eq_true] at h
      exact Option.isNone_iff_eq_none.mp h.1.1.2
    · simp only [Bool.and_eq_true] at h
      exact List.isEmpty_iff.mp h.1.2
    · simp only [Bool.and_eq_true, Bool.not_eq_true', decide_eq_false_iff_not] at h
      exact h.2
  · exact Or.inr (dDrain_skip h)

theorem dReturn_some {s : DState} {m : List Msg} (h : dReturn s = some m) :
    s.finished = true ∧ s.inFlight = none ∧ s.pending = [] ∧ s.buffer = ""
      ∧ m = s.messages := by
  by_cases hc : (s.finished && s.inFlight.isNone && s.pending.isEmpty && (s.buffer = "")) = true
  · simp only [dReturn] at h
    rw [if_pos hc] at h
    simp only [Bool.and_eq_true, decide_eq_true_eq] at hc
    exact ⟨hc.1.1.1, Option.isNone_iff_eq_none.mp hc.1.1.2, List.isEmpty_iff.mp hc.1.2,
      hc.2, (Option.some_inj.mp h).symm⟩
  · simp only [dReturn] at h
    rw [if_neg hc] at h
    exact Option.noConfusion h

theorem dstep_eq (ev : QEvent) (d : Bool) (res : List Msg) (s : DState) :
    dstep ev d res s =
      ⟨(dDrain (dComplete (d && (dDispatchPending (dRecv ev s)).2.isEmpty) res
          (dDispatchPending (dRecv ev s)).1)).1,
       (dDispatchPending (dRecv ev s)).2 ++
         (dDrain (dComplete (d && (dDispatchPending (dRecv ev s)).2.isEmpty) res
           (dDispatchPending (dRecv ev s)).1)).2,
       dReturn (dDrain (dComplete (d && (dDispatchPending (dRecv ev s)).2.isEmpty) res
         (dDispatchPending (dRecv ev s)).1)).1⟩ := rfl

theorem dstep_ret (ev : QEvent) (d : Bool) (res : List Msg) (s : DState) :
    (dstep ev d res s).ret = dReturn ((dstep ev d res s).st) := rfl

/-! ### Claim C1 -/

/-- Claim C1: in every iteration of the dispatch loop, a new `run_agent`
task is started only when no previous invocation is still pending — the
previous slot is empty or that task has completed by this iteration —
and at most one task is started per iteration; a sentence arriving while
an invocation is in flight is accumulated into the pending batch and no
task is started in that iteration, so it is dispatched by a later
iteration in a single batched call rather than overlapping the running
one. -/
theorem dispatch_single_flight (ev : QEvent) (doneNow : Bool)
    (agentResult : List Msg) (s : DState) :
    ((dstep ev doneNow agentResult s).started ≠ [] → s.inFlight = none ∨ doneNow = true)
    ∧ (dstep ev doneNow agentResult s).started.length ≤ 1
    ∧ (∀ b t, s.inFlight = some b → doneNow = false → ev = QEvent.item (some t) →
        (dstep ev doneNow agentResult s).started = []
        ∧ (dstep ev doneNow agentResult s).st.inFlight = some b
        ∧ (dstep ev doneNow agentResult s).st.pending =
            s.pending ++ (split_complete_sentences (pyStrip (s.buffer ++ " " ++ t))).1) := by
  have h1 := dRecv_inFlight ev s
  by_cases hf2 : ((dRecv ev s).inFlight.isNone && !(dRecv ev s).pending.isEmpty) = true
  · -- the pending batch is dispatched this iteration; the slot was empty
    have hnone : s.inFlight = none := by
      rw [← h1]
      exact Option.isNone_iff_eq_none.mp ((Bool.and_eq_true _ _).mp hf2).1
    have e2 := dDispatchPending_fire hf2
    have e3 : dComplete (doneNow && (dDispatchPending (dRecv ev s)).2.isEmpty) agentResult
        (dDispatchPending (dRecv ev s)).1 = (dDispatchPending (dRecv ev s)).1 := by
      apply dComplete_skip
      rw [e2]
      simp
    have e4 : dDrain (dDispatchPending (dRecv ev s)).1
        = ((dDispatchPending (dRecv ev s)).1, []) := by
      apply dDrain_skip
      rw [e2]
      simp
    refine ⟨fun _ => Or.inl hnone, ?_, ?_⟩
    · rw [dstep_eq, e3, e4]
      simp [e2]
    · intro b t hs _ _
      rw [hs] at hnone
      exact Option.noConfusion hnone
  · -- nothing from the batch is dispatched this iteration
    have e2 := dDispatchPending_skip hf2
    have hst : dstep ev doneNow agentResult s =
        ⟨(dDrain (dComplete doneNow agentResult (dRecv ev s))).1,
         (dDrain (dComplete doneNow agentResult (dRecv ev s))).2,
         dReturn (dDrain (dComplete doneNow agentResult (dRecv ev s))).1⟩ := by
      rw [dstep_eq]
      simp [e2]
    rcases dComplete_cases doneNow agentResult (dRecv ev s) with ⟨hcEq, _, hcDone⟩ | hcEq
    · -- the in-flight task completed this iteration
      refine ⟨fun _ => Or.inr hcDone, ?_, ?_⟩
      · rw [hst]
        rcases dDrain_cases (dComplete doneNow agentResult (dRecv ev s)) with ⟨hd, _⟩ | hd <;>
          simp [hd]
      · intro b t _ hdn _
        rw [hdn] at hcDone
        exact Bool.noConfusion hcDone
    · -- no dispatch and no completion: the in-flight task is untouched
      refine ⟨?_, ?_, ?_⟩
      · intro hne
        rw [hst] at hne
        rcases dDrain_cases (dComplete doneNow agentResult (dRecv ev s)) with ⟨hd, _, hif, _⟩ | hd
        · left
          rw [hcEq, h1] at hif
          exact hif
        · rw [hd] at hne
          simp at hne
      · rw [hst]
        rcases dDrain_cases (dComplete doneNow agentResult (dRecv ev s)) with ⟨hd, _⟩ | hd <;>
          simp [hd]
      · intro b t hs hdn hev
        subst hev
        have hs1 : (dRecv (QEvent.item (some t)) s).inFlight = some b := by rw [h1, hs]
        have hdr : dDrain (dComplete doneNow agentResult (dRecv (QEvent.item (some t)) s))
            = (dRecv (QEvent.item (some t)) s, []) := by
          rw [hcEq]
          apply dDrain_skip
          simp [hs1]
        rw [hst, hdr]
        refine ⟨rfl, hs1, ?_⟩
        simp [dRecv]

/-! ### Claim C5 -/

/-- Claim C5: the dispatch loop returns only from a state that is
finished and fully drained — no in-flight invocation, empty pending
batch, empty aggregation buffer — returning the current conversation;
and when end-of-stream has been signaled and the loop is idle, remaining
text is drained into one more dispatch instead of being discarded: a
non-empty pending batch is dispatched as one batch, and a non-empty
buffer is dispatched as a final batch, in both cases without
terminating in that iteration. -/
theorem dispatch_drain (ev : QEvent) (doneNow : Bool)
    (agentResult : List Msg) (s : DState) :
    (∀ m, (dstep ev doneNow agentResult s).ret = some m →
        (dstep ev doneNow agentResult s).st.finished = true
        ∧ (dstep ev doneNow agentResult s).st.inFlight = none
        ∧ (dstep ev doneNow agentResult s).st.pending = []
        ∧ (dstep ev doneNow agentResult s).st.buffer = ""
        ∧ m = (dstep ev doneNow agentResult s).st.messages)
    ∧ (s.finished = true → s.inFlight = none → s.pending = [] → s.buffer ≠ "" →
        ev = QEvent.timeout →
        (dstep ev doneNow agentResult s).started = [s.buffer]
        ∧ (dstep ev doneNow agentResult s).st.buffer = ""
        ∧ (dstep ev doneNow agentResult s).ret = none)
    ∧ (s.finished = true → s.inFlight = none → s.pending ≠ [] → ev = QEvent.timeout →
        (dstep ev doneNow agentResult s).started = [pyStrip (joinSpace s.pending)]
        ∧ (dstep ev doneNow agentResult s).st.pending = []
        ∧ (dstep ev doneNow agentResult s).ret = none) := by
  refine ⟨?_, ?_, ?_⟩
  · intro m hm
    rw [dstep_ret] at hm
    exact dReturn_some hm
  · -- draining the leftover buffer into one last dispatch
    intro hfin hif hpend hbuf hev
    subst hev
    have hr : dRecv QEvent.timeout s = s := rfl
    have e2 : dDispatchPending s = (s, []) := by
      apply dDispatchPending_skip
      simp [hpend]
    have hst : dstep QEvent.timeout doneNow agentResult s =
        ⟨(dDrain (dComplete doneNow agentResult s)).1,
         (dDrain (dComplete doneNow agentResult s)).2,
         dReturn (dDrain (dComplete doneNow agentResult s)).1⟩ := by
      rw [dstep_eq, hr, e2]
      simp
    have e3 : dComplete doneNow agentResult s = s := by
      apply dComplete_skip
      simp [hif]
    have e4 : dDrain s = ({ s with buffer := "", inFlight := some s.buffer }, [s.buffer]) := by
      apply dDrain_fire
      simp [hfin, hif, hpend, hbuf]
    rw [hst, e3, e4]
    refine ⟨rfl, rfl, ?_⟩
    simp [dReturn]
  · -- draining the pending batch after end-of-stream
    intro hfin hif hpend hev
    subst hev
    have hr : dRecv QEvent.timeout s = s := rfl
    have e2 : dDispatchPending s =
        ({ s with pending := [], inFlight := some (pyStrip (joinSpace s.pending)) },
         [pyStrip (joinSpace s.pending)]) := by
      apply dDispatchPending_fire
      simp [hif, List.isEmpty_iff, hpend]
    have e3 : dComplete (doneNow && ((dDispatchPending s).2).isEmpty)
        agentResult (dDispatchPending s).1
        = (dDispatchPending s).1 := by
      apply dComplete_skip
      rw [e2]
      simp
    have e4 : dDrain (dDispatchPending s).1
        = ((dDispatchPending s).1, []) := by
      apply dDrain_skip
      rw [e2]
      simp
    rw [dstep_eq, hr, e3, e4]
    refine ⟨by simp [e2], by simp [e2], ?_⟩
    rw [e2]
    simp [dReturn]

/-- Witness for claim C1: a pending sentence is dispatched from the idle
state, and a sentence arriving while a task is in flight is buffered
without starting a task. -/
theorem dispatch_single_flight_witness :
    ((dstep QEvent.timeout false [] ⟨"", ["a."], none, false, []⟩).started ≠ []
      ∧ ((⟨"", ["a."], none, false, []⟩ : DState).inFlight = none ∨ false = true))
    ∧ ((⟨"", [], some "b", false, []⟩ : DState).inFlight = some "b"
      ∧ (dstep (QEvent.item (some "x.")) false [] ⟨"", [], some "b", false, []⟩).started = []
      ∧ (dstep (QEvent.item (some "x.")) false [] ⟨"", [], some "b", false, []⟩).st.pending =
          [] ++ (split_complete_sentences (pyStrip ("" ++ " " ++ "x."))).1) := by
  refine ⟨⟨by decide, (dispatch_single_flight QEvent.timeout false []
    ⟨"", ["a."], none, false, []⟩).1 (by decide)⟩, rfl, ?_, ?_⟩
  · exact ((dispatch_single_flight (QEvent.item (some "x.")) false []
      ⟨"", [], some "b", false, []⟩).2.2 "b" "x." rfl rfl rfl).1
  · exact ((dispatch_single_flight (QEvent.item (some "x.")) false []
      ⟨"", [], some "b", false, []⟩).2.2 "b" "x." rfl rfl rfl).2.2

/-! ### TTS serializer lemmas -/

theorem runLog_append (m0 : LogPhase) (l1 l2 : List TEv) :
    runLog m0 (l1 ++ l2) =
      match runLog m0 l1 with
      | some m => runLog m l2
      | none => none := by
  induction l1 generalizing m0 with
  | nil => rfl
  | cons e es ih =>
    simp only [List.cons_append, runLog]
    cases logStep m0 e with
    | none => rfl
    | some m2 => exact ih m2

theorem setPhase_mem {tasks : List (Nat × SpeakPhase)} {i : Nat} {ph : SpeakPhase}
    {p : Nat × SpeakPhase} (h : p ∈ setPhase tasks i ph) :
    (p.1 = i ∧ p.2 = ph) ∨ (p ∈ tasks ∧ p.1 ≠ i) := by
  unfold setPhase at h
  obtain ⟨q, hq, hEq⟩ := List.mem_map.mp h
  by_cases hk : q.1 = i
  · left
    rw [if_pos hk] at hEq
    rw [← hEq]
    exact ⟨rfl, rfl⟩
  · right
    rw [if_neg hk] at hEq
    rw [← hEq]
    exact ⟨hq, hk⟩

theorem removeTask_mem {tasks : List (Nat × SpeakPhase)} {i : Nat}
    {p : Nat × SpeakPhase} (h : p ∈ removeTask tasks i) : p ∈ tasks ∧ p.1 ≠ i := by
  unfold removeTask at h
  have h2 := List.mem_filter.mp h
  refine ⟨h2.1, ?_⟩
  have := h2.2
  simpa using this

theorem findPhase_some {tasks : List (Nat × SpeakPhase)} {i : Nat} {ph : SpeakPhase}
    (h : findPhase tasks i = some ph) : ∃ p ∈ tasks, p.1 = i ∧ p.2 = ph := by
  unfold findPhase at h
  cases hq : tasks.find? (fun p => p.1 = i) with
  | none => rw [hq] at h; exact Option.noConfusion h
  | some q =>
    rw [hq] at h
    simp only [Option.map_some'] at h
    have hmem := List.mem_of_find?_eq_some hq
    have hpred := List.find?_some hq
    simp only [decide_eq_true_eq] at hpred
    exact ⟨q, hmem, hpred, Option.some_inj.mp h⟩

theorem ttsStep_inv (s : TTSState) (i : Nat)
    (h : ∃ m, runLog LogPhase.free s.log = some m ∧ Coupling m s) :
    ∃ m, runLog LogPhase.free (ttsStep s i).log = some m ∧ Coupling m (ttsStep s i) := by
  obtain ⟨m, hrun, hcpl⟩ := h
  cases hf : findPhase s.tasks i with
  | none =>
    refine ⟨m, ?_, ?_⟩
    · simp only [ttsStep, hf]
      exact hrun
    · simp only [ttsStep, hf]
      exact hcpl
  | some ph =>
    obtain ⟨p, hpmem, hpkey, hpph⟩ := findPhase_some hf
    cases ph with
    | atLoop =>
      by_cases hsp : s.is_speaking = true
      · refine ⟨m, ?_, ?_⟩
        · simp only [ttsStep, hf, hsp, if_true]
          exact hrun
        · simp only [ttsStep, hf, hsp, if_true]
          exact hcpl
      · have hspf : s.is_speaking = false := by simpa using hsp
        have hm : m = LogPhase.free := by
          cases m with
          | free => rfl
          | synth j =>
            have := hcpl.1
            rw [hspf] at this
            exact Bool.noConfusion this
          | play j =>
            have := hcpl.1
            rw [hspf] at this
            exact Bool.noConfusion this
        subst hm
        have hstep : ttsStep s i =
            { is_speaking := true, tasks := setPhase s.tasks i SpeakPhase.awaitReply,
              log := s.log ++ [TEv.synthStart i] } := by
          simp only [ttsStep, hf, hspf]
          rfl
        refine ⟨LogPhase.synth i, ?_, ?_⟩
        · rw [hstep]
          show runLog LogPhase.free (s.log ++ [TEv.synthStart i]) = _
          rw [runLog_append, hrun]
          rfl
        · rw [hstep]
          refine ⟨rfl, ?_, ?_⟩
          · intro q hq hk
            rcases setPhase_mem hq with ⟨h1, _⟩ | ⟨h1, _⟩
            · exact absurd h1 hk
            · exact hcpl.2 q h1
          · intro q hq hk
            rcases setPhase_mem hq with ⟨_, h2⟩ | ⟨_, h2⟩
            · exact h2
            · exact absurd hk h2
    | awaitReply =>
      have hm : m = LogPhase.synth i := by
        cases m with
        | free =>
          have := hcpl.2 p hpmem
          rw [hpph] at this
          exact SpeakPhase.noConfusion this
        | synth j =>
          by_cases hk : p.1 = j
          · rw [hpkey] at hk
            rw [hk]
          · have := hcpl.2.1 p hpmem hk
            rw [hpph] at this
            exact SpeakPhase.noConfusion this
        | play j =>
          by_cases hk : p.1 = j
          · have := hcpl.2.2 p hpmem hk
            rw [hpph] at this
            exact SpeakPhase.noConfusion this
          · have := hcpl.2.1 p hpmem hk
            rw [hpph] at this
            exact SpeakPhase.noConfusion this
      subst hm
      have hstep : ttsStep s i =
          { s with
              tasks := setPhase s.tasks i SpeakPhase.playing,
              log := s.log ++ [TEv.playStart i] } := by
        simp only [ttsStep, hf]
      refine ⟨LogPhase.play i, ?_, ?_⟩
      · rw [hstep]
        show runLog LogPhase.free (s.log ++ [TEv.playStart i]) = _
        rw [runLog_append, hrun]
        simp [runLog, logStep]
      · rw [hstep]
        refine ⟨hcpl.1, ?_, ?_⟩
        · intro q hq hk
          rcases setPhase_mem hq with ⟨h1, _⟩ | ⟨h1, _⟩
          · exact absurd h1 hk
          · exact hcpl.2.1 q h1 hk
        · intro q hq hk
          rcases setPhase_mem hq with ⟨_, h2⟩ | ⟨_, h2⟩
          · exact h2
          · exact absurd hk h2
    | playing =>
      have hm : m = LogPhase.play i := by
        cases m with
        | free =>
          have := hcpl.2 p hpmem
          rw [hpph] at this
          exact SpeakPhase.noConfusion this
        | synth j =>
          by_cases hk : p.1 = j
          · have := hcpl.2.2 p hpmem hk
            rw [hpph] at this
            exact SpeakPhase.noConfusion this
          · have := hcpl.2.1 p hpmem hk
            rw [hpph] at this
            exact SpeakPhase.noConfusion this
        | play j =>
          by_cases hk : p.1 = j
          · rw [hpkey] at hk
            rw [hk]
          · have := hcpl.2.1 p hpmem hk
            rw [hpph] at this
            exact SpeakPhase.noConfusion this
      subst hm
      have hstep : ttsStep s i =
          { is_speaking := false, tasks := removeTask s.tasks i,
            log := s.log ++ [TEv.playEnd i] } := by
        simp only [ttsStep, hf]
      refine ⟨LogPhase.free, ?_, ?_⟩
      · rw [hstep]
        show runLog LogPhase.free (s.log ++ [TEv.playEnd i]) = _
        rw [runLog_append, hrun]
        simp [runLog, logStep]
      · rw [hstep]
        refine ⟨rfl, ?_⟩
        intro q hq
        obtain ⟨h1, h2⟩ := removeTask_mem hq
        exact hcpl.2.1 q h1 h2

theorem ttsRun_inv (sched : List Nat) (s : TTSState)
    (h : ∃ m, runLog LogPhase.free s.log = some m ∧ Coupling m s) :
    ∃ m, runLog LogPhase.free (sched.foldl ttsStep s).log = some m
      ∧ Coupling m (sched.foldl ttsStep s) := by
  induction sched generalizing s with
  | nil => exact h
  | cons i is ih =>
    simp only [List.foldl_cons]
    exact ih (ttsStep s i) (ttsStep_inv s i h)

/-! ### Claim C6 -/

/-- Claim C6: for every number of concurrent `speak` calls and every
cooperative interleaving of their atomic segments, the event log of the
serializer is accepted by the strict alternation checker: synthesis of
an utterance begins only when no other utterance is open, its playback
follows its own synthesis, and the playback of utterance N ends before
synthesis or playback of utterance N+1 begins — later `speak` calls wait
on the `is_speaking` flag, which is cleared only after the previous
playback has completed. -/
theorem tts_serializes (n : Nat) (sched : List Nat) :
    serialized (ttsRun n sched).log = true := by
  have hinit : ∃ m, runLog LogPhase.free (ttsInit n).log = some m
      ∧ Coupling m (ttsInit n) := by
    refine ⟨LogPhase.free, rfl, rfl, ?_⟩
    intro p hp
    obtain ⟨j, _, hEq⟩ := List.mem_map.mp hp
    rw [← hEq]
  obtain ⟨m, hrun, _⟩ := ttsRun_inv sched (ttsInit n) hinit
  unfold ttsRun
  unfold serialized
  rw [hrun]
  rfl

/-! ### Resampler lemmas -/

theorem avgPairs_length : ∀ l : List Int, (avgPairs l).length = l.length / 2
  | [] => rfl
  | [_] => by
    simp only [avgPairs, List.length_nil, List.length_cons]
  | a :: b :: rest => by
    have ih := avgPairs_length rest
    simp only [avgPairs, List.length_cons, ih]
    omega

theorem every3_length : ∀ l : List Int, (every3 l).length = (l.length + 2) / 3
  | [] => rfl
  | [_] => by
    simp only [every3, List.length_cons, List.length_nil]
  | [_, _] => by
    simp only [every3, List.length_cons, List.length_nil]
  | a :: b :: c :: rest => by
    have ih := every3_length rest
    simp only [every3, List.length_cons, ih]
    omega

/-! ### Claim C9 -/

/-- Claim C9, as stated, is false: the decimation `mono[::3]` keeps the
elements at indices 0, 3, 6, ..., which are ceil of (L/2)/3 many, not
the floor the claim computes. For 8 samples of 48 kHz stereo silence the
output has 2 samples while L/2/3 = 1. -/
theorem pcm_to_16k_mono_length_cex :
    (pcm_to_16k_mono (List.replicate 8 0) 48000).length = 2
    ∧ (8 : Nat) / 2 / 3 = 1 ∧ (2 : Nat) ≠ 1 := by
  decide

/-- Claim C9 (amended): for every 48 kHz stereo 16-bit PCM input, the
resampler first truncates an odd sample count to even (yielding E
samples) rather than failing, averages the two channels, and decimates
by stride 3, returning ceil((E/2)/3) = (E/2 + 2)/3 samples — equal to
L/2/3 only when E/2 is a multiple of 3; an empty input yields an empty
buffer. -/
theorem pcm_to_16k_mono_length (l : List Int) :
    (pcm_to_16k_mono l 48000).length = ((l.length - l.length % 2) / 2 + 2) / 3
    ∧ pcm_to_16k_mono ([] : List Int) 48000 = [] := by
  refine ⟨?_, rfl⟩
  cases l with
  | nil => decide
  | cons a as =>
    by_cases hpar : (a :: as).length % 2 = 0
    · have hb : pcm_to_16k_mono (a :: as) 48000 = every3 (avgPairs (a :: as)) := by
        simp only [pcm_to_16k_mono]
        rw [if_neg (show ¬((a :: as).isEmpty = true) by simp)]
        rw [if_neg (show ¬((a :: as).length % 2 ≠ 0) from fun h => h hpar)]
        rw [if_neg (by decide)]
        simp
      rw [hb, every3_length, avgPairs_length]
      omega
    · have hb : pcm_to_16k_mono (a :: as) 48000 = every3 (avgPairs (a :: as).dropLast) := by
        simp only [pcm_to_16k_mono]
        rw [if_neg (show ¬((a :: as).isEmpty = true) by simp)]
        rw [if_pos hpar]
        rw [if_neg (by decide)]
        simp
      rw [hb, every3_length, avgPairs_length, List.length_dropLast]
      omega

/-- Witness for claim C5: at end-of-stream with an idle loop and the
leftover buffer "tail", one more dispatch is started with that text and
the loop does not yet terminate. -/
theorem dispatch_drain_witness :
    ((⟨"tail", [], none, true, []⟩ : DState).finished = true
      ∧ (⟨"tail", [], none, true, []⟩ : DState).inFlight = none
      ∧ (⟨"tail", [], none, true, []⟩ : DState).pending = []
      ∧ ("tail" : String) ≠ "")
    ∧ (dstep QEvent.timeout false [] ⟨"tail", [], none, true, []⟩).started = ["tail"]
    ∧ (dstep QEvent.timeout false [] ⟨"tail", [], none, true, []⟩).st.buffer = ""
    ∧ (dstep QEvent.timeout false [] ⟨"tail", [], none, true, []⟩).ret = none := by
  refine ⟨⟨rfl, rfl, rfl, by decide⟩, ?_⟩
  exact (dispatch_drain QEvent.timeout false [] ⟨"tail", [], none, true, []⟩).2.1
    rfl rfl rfl (by decide) rfl

end HoloChan
